import Mathlib

/-!
Verification of the reactive atom store (`src/core/Provider.ts`).

The engine state, the read/write algorithms and the garbage sweep are
embedded as executable Lean functions.  Asynchronous behaviour (promise
settlement, deferred writes, the write-thunk queue) is made explicit:
promises are identifiers whose eventual outcome is given by an
environment table, and the callbacks the source registers with `.then`
are reified as continuation data fired by settlement events.
-/

namespace Jotai

/-- Error values thrown by read or write functions. -/
abbrev Err := Nat

/-- Modelled from the spec: the persistent key-value container from
`immutableMap.ts`, whose source is not part of this tree.  The spec asks
for `create/get/set/delete/keys/merge` where every mutator returns a new
map, prior maps stay valid, and an absent key yields a "not found"
sentinel (here `Option.none`).  Keys keep insertion order. -/
abbrev ImmutableMap (α β : Type) : Type := List (α × β)

/-- Modelled from the spec: the empty map. -/
def mCreate {α β : Type} : ImmutableMap α β := []

/-- Modelled from the spec: lookup; `none` is the "not found" sentinel. -/
def mGet {α β : Type} [DecidableEq α] (m : ImmutableMap α β) (k : α) : Option β :=
  match m with
  | [] => none
  | (k', v) :: t => if k' = k then some v else mGet t k

/-- Modelled from the spec: insert or replace, returning a new map. -/
def mSet {α β : Type} [DecidableEq α] (m : ImmutableMap α β) (k : α) (v : β) :
    ImmutableMap α β :=
  match m with
  | [] => [(k, v)]
  | (k', v') :: t => if k' = k then (k, v) :: t else (k', v') :: mSet t k v

/-- Modelled from the spec: delete, returning a new map. -/
def mDel {α β : Type} [DecidableEq α] (m : ImmutableMap α β) (k : α) :
    ImmutableMap α β :=
  match m with
  | [] => []
  | (k', v') :: t => if k' = k then mDel t k else (k', v') :: mDel t k

/-- Modelled from the spec: the key sequence. -/
def mKeys {α β : Type} (m : ImmutableMap α β) : List α := m.map Prod.fst

/-- Modelled from the spec: right-biased merge. -/
def mMerge {α β : Type} [DecidableEq α] (a b : ImmutableMap α β) : ImmutableMap α β :=
  b.foldl (fun acc kv => mSet acc kv.1 kv.2) a

/-- Per-atom computed record (`AtomState` in the source): `readE` the read
error, `readP` resp. `writeP` in-flight read/write promise ids, `value`
the stored value, `deps` the set of dependent atoms (kept as a
duplicate-free list). -/
structure AtomState where
  readE : Option Err := none
  readP : Option Nat := none
  writeP : Option Nat := none
  value : Option Int := none
  deps : List Nat := []
deriving DecidableEq, Repr, Inhabited

/-- `State`: an immutable snapshot mapping atom ids to atom state. -/
abbrev State := ImmutableMap Nat AtomState

/-- The side cache holding the last state of evicted atoms
(`AtomStateCache` in the source, a `WeakMap`). -/
abbrev Cache := ImmutableMap Nat AtomState

/-- Deep embedding of an atom's `read(get)` function: return a value,
call `get` on another atom and continue with the received value, throw an
error, or return a promise with the given source id. -/
inductive ReadExpr where
  | ret : Int → ReadExpr
  | getA : Nat → (Int → ReadExpr) → ReadExpr
  | throwErr : Err → ReadExpr
  | retPromise : Nat → ReadExpr

/-- Deep embedding of an atom's `write(get, set, update)` body. -/
inductive WriteExpr where
  | done : WriteExpr
  | getW : Nat → (Int → WriteExpr) → WriteExpr
  | setW : Nat → Int → WriteExpr → WriteExpr
  | throwW : Err → WriteExpr
  | retPromiseW : Nat → WriteExpr

/-- An atom descriptor: initial value, read function, optional write
function (parameterised by the update value). -/
structure PAtom where
  init : Int
  read : ReadExpr
  write : Option (Int → WriteExpr) := none

instance : Inhabited PAtom := ⟨{ init := 0, read := .ret 0 }⟩

/-- The environment: the atom table, and the eventual outcome of every
source promise id (resolution value or rejection error). -/
structure Env where
  atoms : Nat → PAtom
  pout : Nat → Except Err Int

/-- A partial atom-state update, mirroring the object-spread
`{ ...atomState, ...partial }` in `updateAtomState`: a `some` field is
present in the partial (and overwrites, even with `none` — spreading
`undefined` overwrites in JS), `none` means the field is absent. -/
structure UPart where
  readE : Option (Option Err) := none
  readP : Option (Option Nat) := none
  writeP : Option (Option Nat) := none
  value : Option (Option Int) := none

/-- Apply a partial update to an atom state (`deps` is never part of a
partial in the source). -/
def applyPart (s : AtomState) (p : UPart) : AtomState :=
  { s with
    readE := p.readE.getD s.readE
    readP := p.readP.getD s.readP
    writeP := p.writeP.getD s.writeP
    value := p.value.getD s.value }

/-- `updateAtomState` (Provider.ts lines 101-119): fetch the previous
state (a fresh `{ deps: new Set() }` when missing), skip the update when
a `prevPromise` is supplied that is no longer the current `readP`, else
write the merged record back. -/
def updateAtomState (aid : Nat) (prev : State) (p : UPart)
    (prevPromise : Option Nat) : State :=
  let s := (mGet prev aid).getD { deps := [] }
  if prevPromise.isSome ∧ prevPromise ≠ s.readP then prev
  else mSet prev aid (applyPart s p)

/-- `addDependent` (lines 121-132): record `dependent` in `atom`'s
dependents set, a no-op when the edge exists or the atom is untracked. -/
def addDependent (aid dependent : Nat) (prev : State) : State :=
  match mGet prev aid with
  | some s =>
      if dependent ∈ s.deps then prev
      else mSet prev aid { s with deps := s.deps ++ [dependent] }
  | none => prev

/-- First phase of `replaceDependencies` (lines 141-153): walk every key;
where the dependent edge to `aid` exists, keep it when the key is among
the new dependencies (and drop the key from the pending set), else remove
the edge. -/
def rdPhase1 (aid : Nat) : List Nat → State → List Nat → State × List Nat
  | [], st, ds => (st, ds)
  | a :: rest, st, ds =>
      match mGet st a with
      | none => rdPhase1 aid rest st ds
      | some s =>
          if aid ∈ s.deps then
            if a ∈ ds then rdPhase1 aid rest st (ds.erase a)
            else rdPhase1 aid rest (mSet st a { s with deps := s.deps.erase aid }) ds
          else rdPhase1 aid rest st ds

/-- Second phase of `replaceDependencies` (lines 154-162): add the edge
for every newly discovered dependency still tracked in the snapshot. -/
def rdPhase2 (aid : Nat) : List Nat → State → State
  | [], st => st
  | a :: rest, st =>
      match mGet st a with
      | some s =>
          rdPhase2 aid rest
            (mSet st a { s with deps := if aid ∈ s.deps then s.deps else s.deps ++ [aid] })
      | none => rdPhase2 aid rest st

/-- `replaceDependencies` (lines 134-164): reconcile the dependency edges
of `aid` against the freshly collected dependency set. -/
def replaceDependencies (aid : Nat) (prev : State) (toReplace : List Nat) : State :=
  let r := rdPhase1 aid (mKeys prev) prev toReplace
  rdPhase2 aid r.2 r.1

/-- A reified `.then` continuation registered by the engine:
`readSettle` is the callback pair attached to a read promise (lines
228-255, guarded by `storedP`), `depUpdate` re-runs dependent propagation
after an async dependent settles (lines 317-320), `writePSettle` is the
`.then` on a write-returned promise that queues the `writeP`-clearing
thunk (lines 426-430), `deferredWrite` is a write queued behind an
in-flight write promise (lines 363-368). -/
inductive Cont where
  | readSettle (watch storedP aid : Nat) (deps : List Nat)
  | depUpdate (watch aid : Nat)
  | writePSettle (watch storedP aid : Nat)
  | deferredWrite (watch aid : Nat) (u : Int)
deriving DecidableEq, Repr

/-- The promise id whose settlement fires this continuation. -/
def Cont.watch : Cont → Nat
  | .readSettle w _ _ _ => w
  | .depUpdate w _ => w
  | .writePSettle w _ _ => w
  | .deferredWrite w _ _ => w

/-- A queued write thunk: either a (possibly deferred) write, or the
thunk that clears `writeP` after a write promise settles. -/
inductive ThunkD where
  | writeT (a : Nat) (u : Int)
  | clearWP (a : Nat)
deriving DecidableEq, Repr

/-- A promise the overall `write()` result waits on: the write
function's own returned promise, an already-rejected promise created in
the catch block (lines 435-439), or the deferral promise
`writeP.then(...)` (line 364) which always resolves. -/
inductive Pend where
  | fromProm (p : Nat)
  | rejected (e : Err)
  | deferral (p : Nat)
deriving DecidableEq, Repr

/-- The mutable context threaded through a synchronous engine run: the
evolving snapshot, the fresh-promise counter, and the continuations
registered so far. -/
structure Ctx where
  st : State
  pc : Nat
  conts : List Cont
deriving DecidableEq, Repr

/-- Outcome of running a read function: a value, a returned promise id,
or a thrown error / thrown promise (dependency-not-ready signal). -/
inductive Thrown where
  | err : Err → Thrown
  | prom : Nat → Thrown
deriving DecidableEq, Repr

mutual

/-- `readAtomState` (lines 166-288): with a cache, reuse an existing or
cached state (lines 172-181); otherwise run the atom's read function and
store the outcome: a value resolves the atom, a returned promise puts it
in pending state with a fresh stored promise and a registered settlement
callback, a thrown promise makes the atom pending on that promise, a
thrown error sets `readE` (lines 260-284).  Fuel bounds the recursion
depth; at fuel 0 the context is returned unchanged. -/
def readAtomState : Nat → Env → Option Cache → Nat → Ctx → AtomState × Ctx
  | 0, _, _, _, c => (default, c)
  | Nat.succ n, env, cacheOpt, aid, c =>
      match cacheOpt with
      | some cache =>
          match mGet c.st aid with
          | some s => (s, c)
          | none =>
              match mGet cache aid with
              | some s => (s, { c with st := mSet c.st aid s })
              | none => readAtomStateMain n env cacheOpt aid c
      | none => readAtomStateMain n env cacheOpt aid c

/-- The non-cached body of `readAtomState` (lines 182-288). -/
def readAtomStateMain : Nat → Env → Option Cache → Nat → Ctx → AtomState × Ctx
  | 0, _, _, _, c => (default, c)
  | Nat.succ n, env, cacheOpt, aid, c =>
      match runRead n env cacheOpt aid (env.atoms aid).read c [] with
      | (.ok (.inl v), c1, deps) =>
          let st2 := updateAtomState aid c1.st
            { readE := some none, readP := some none, value := some (some v) } none
          let st3 := replaceDependencies aid st2 deps
          ((mGet st3 aid).getD default, { c1 with st := st3 })
      | (.ok (.inr pid), c1, deps) =>
          let q := c1.pc
          let st2 := updateAtomState aid c1.st
            { readE := some none, readP := some (some q),
              value := some (some (env.atoms aid).init) } none
          ((mGet st2 aid).getD default,
            { st := st2, pc := q + 1,
              conts := c1.conts ++ [.readSettle pid q aid deps] })
      | (.error (.prom p), c1, deps) =>
          let st2 := updateAtomState aid c1.st
            { readE := some none, readP := some (some p),
              value := some (some (env.atoms aid).init) } none
          let st3 := replaceDependencies aid st2 deps
          ((mGet st3 aid).getD default, { c1 with st := st3 })
      | (.error (.err e), c1, deps) =>
          let st2 := updateAtomState aid c1.st
            { readE := some (some e), readP := some none, value := some none } none
          let st3 := replaceDependencies aid st2 deps
          ((mGet st3 aid).getD default, { c1 with st := st3 })

/-- The interpreter of a read function against the getter of lines
190-226: each accessed atom is recorded as a dependency; `get` on
another atom resolves it recursively, then re-throws its stored error or
pending promise; `get` on the atom itself returns its current (or
initial) value, or throws its own pending promise. -/
def runRead : Nat → Env → Option Cache → Nat → ReadExpr → Ctx → List Nat →
    (Except Thrown (Int ⊕ Nat)) × Ctx × List Nat
  | 0, _, _, _, _, c, deps => (.error (.err 0), c, deps)
  | Nat.succ n, env, cacheOpt, selfAid, e, c, deps =>
      match e with
      | .ret v => (.ok (.inl v), c, deps)
      | .retPromise pid => (.ok (.inr pid), c, deps)
      | .throwErr er => (.error (.err er), c, deps)
      | .getA a k =>
          let deps' := if a ∈ deps then deps else deps ++ [a]
          if a = selfAid then
            match mGet c.st a with
            | some s =>
                match s.readP with
                | some p => (.error (.prom p), c, deps')
                | none =>
                    runRead n env cacheOpt selfAid (k (s.value.getD 0)) c deps'
            | none => runRead n env cacheOpt selfAid (k (env.atoms a).init) c deps'
          else
            match readAtomState n env cacheOpt a c with
            | (s, c1) =>
                match s.readE with
                | some er => (.error (.err er), c1, deps')
                | none =>
                    match s.readP with
                    | some p => (.error (.prom p), c1, deps')
                    | none =>
                        runRead n env cacheOpt selfAid (k (s.value.getD 0)) c1 deps'

/-- `updateDependentsState` (lines 290-327): re-resolve every dependent;
an async dependent registers a continuation to repeat propagation once
its promise settles, a sync dependent propagates recursively. -/
def updateDependentsState : Nat → Env → Nat → Ctx → Ctx
  | 0, _, _, c => c
  | Nat.succ n, env, aid, c =>
      match mGet c.st aid with
      | none => c
      | some s => udsList n env aid s.deps c

/-- The dependent-list walk inside `updateDependentsState`. -/
def udsList : Nat → Env → Nat → List Nat → Ctx → Ctx
  | 0, _, _, _, c => c
  | Nat.succ n, env, aid, ds, c =>
      match ds with
      | [] => c
      | d :: rest =>
          if d = aid ∨ (mGet c.st d).isNone then udsList n env aid rest c
          else
            match readAtomState n env none d c with
            | (depS, c1) =>
                match depS.readP with
                | some p =>
                    udsList n env aid rest
                      { c1 with conts := c1.conts ++ [.depUpdate p d] }
                | none =>
                    udsList n env aid rest (updateDependentsState n env d c1)

/-- `writeAtomState` (lines 357-446): a write arriving while the atom
has an in-flight write promise is deferred as a continuation behind that
promise (lines 362-369); otherwise the write function runs; a returned
promise is tracked in `writeP` with a settlement continuation that will
queue the clearing thunk; a throw is re-raised when no asynchronous
chain is pending, else converted into a rejected pending promise. -/
def writeAtomState : Nat → Env → Nat → Int → Ctx → List Pend →
    Ctx × List Pend × Option Err
  | 0, _, _, _, c, pends => (c, pends, none)
  | Nat.succ n, env, aid, u, c, pends =>
      match mGet c.st aid with
      | some s =>
          match s.writeP with
          | some q =>
              ({ c with conts := c.conts ++ [.deferredWrite q aid u] },
               pends ++ [.deferral q], none)
          | none => writeAtomStateRun n env aid u c pends
      | none => writeAtomStateRun n env aid u c pends

/-- The body of `writeAtomState` once no write is in flight (lines
370-445). -/
def writeAtomStateRun : Nat → Env → Nat → Int → Ctx → List Pend →
    Ctx × List Pend × Option Err
  | 0, _, _, _, c, pends => (c, pends, none)
  | Nat.succ n, env, aid, u, c, pends =>
      match (env.atoms aid).write with
      | none => (c, pends, none)
      | some wf =>
          match runWrite n env aid (wf u) c pends with
          | (c1, pends1, some e, _) =>
              if pends1.isEmpty then (c1, pends1, some e)
              else (c1, pends1 ++ [.rejected e], none)
          | (c1, pends1, none, some wpid) =>
              let q := c1.pc
              let st2 := updateAtomState aid c1.st { writeP := some (some q) } none
              ({ st := st2, pc := q + 1,
                 conts := c1.conts ++ [.writePSettle wpid q aid] },
               pends1 ++ [.fromProm wpid], none)
          | (c1, pends1, none, none) => (c1, pends1, none)

/-- The interpreter of a write function against the `get`/`set` pair of
lines 373-421: `get` returns the stored (or initial) value; `set` on the
written atom itself updates its state and propagates to dependents;
`set` on another atom performs a nested `writeAtomState`, whose
re-thrown error aborts the remainder of this write. -/
def runWrite : Nat → Env → Nat → WriteExpr → Ctx → List Pend →
    Ctx × List Pend × Option Err × Option Nat
  | 0, _, _, _, c, pends => (c, pends, none, none)
  | Nat.succ n, env, selfAid, e, c, pends =>
      match e with
      | .done => (c, pends, none, none)
      | .throwW er => (c, pends, some er, none)
      | .retPromiseW p => (c, pends, none, some p)
      | .getW a k =>
          let v := match mGet c.st a with
            | none => (env.atoms a).init
            | some s => s.value.getD 0
          runWrite n env selfAid (k v) c pends
      | .setW a v rest =>
          if a = selfAid then
            let st1 := updateAtomState a c.st
              { readE := some none, readP := some none, value := some (some v) } none
            let c1 := updateDependentsState n env a { c with st := st1 }
            runWrite n env selfAid rest c1 pends
          else
            match writeAtomState n env a v c pends with
            | (c1, pends1, some e) => (c1, pends1, some e, none)
            | (c1, pends1, none) => runWrite n env selfAid rest c1 pends1

end

/-- Execute one queued thunk (`WriteThunk` in the source).  A `writeT`
thunk runs `writeAtomState`; when that re-throws synchronously (write
error with no pending chain) the thunk aborts without producing a next
state: the snapshot reverts (the thunk never returned a `nextState`),
but the `.then` registrations and promises created before the throw are
irrevocable side effects and persist.  The boolean reports the abort. -/
def runThunkD (fuel : Nat) (env : Env) (t : ThunkD) (c : Ctx) : Ctx × Bool :=
  match t with
  | .writeT a u =>
      match writeAtomState fuel env a u c [] with
      | (c1, _, some _) => (⟨c.st, c1.pc, c1.conts⟩, true)
      | (c1, _, none) => (c1, false)
  | .clearWP a =>
      ({ c with st := updateAtomState a c.st { writeP := some none } none }, false)

/-- Drain the thunk queue in FIFO order (`runWriteThunk`, lines 470-499,
with the committed snapshot always available in this collapsed model).
An aborting thunk leaves the rest of the queue in place. -/
def runThunks (fuel : Nat) (env : Env) : List ThunkD → Ctx → Ctx × List ThunkD
  | [], c => (c, [])
  | t :: rest, c =>
      match runThunkD fuel env t c with
      | (c1, true) => (c1, rest)
      | (c1, false) => runThunks fuel env rest c1

/-- The full scheduler configuration: snapshot, promise counter,
registered continuations, queued thunks, and the eviction side cache. -/
structure Config where
  st : State
  pc : Nat
  conts : List Cont
  thunks : List ThunkD
  cache : Cache
deriving DecidableEq, Repr

/-- View of a configuration as an engine context. -/
def Config.toCtx (cfg : Config) : Ctx := ⟨cfg.st, cfg.pc, cfg.conts⟩

/-- Put an engine context back into a configuration. -/
def Config.withCtx (cfg : Config) (c : Ctx) : Config :=
  { cfg with st := c.st, pc := c.pc, conts := c.conts }

/-- Fire one continuation whose watched promise settled with outcome
`out`.  `readSettle` is the `.then`/`.catch` pair of lines 229-255: it
runs on either outcome — dependencies are reconciled, then the guarded
`updateAtomState` applies the resolution value or the rejection error —
and the chain's own promise (the stored `readP`) always resolves, since
the `.catch` ends the chain.  The other three are registered with
`.then` only (lines 318, 364, 426), so they run only on resolution:
`depUpdate` repeats dependent propagation; `writePSettle` queues the
`writeP`-clearing thunk and drains the queue (the `addWriteThunk` of
line 605 runs it at once), with the stored `writeP` passing the
outcome through; `deferredWrite` queues and runs the deferred write —
on rejection the deferred write is dropped.  The returned list holds
derived promises that settle as a consequence, with their outcomes. -/
def fireOne (fuel : Nat) (env : Env) (cfg : Config) (out : Except Err Int)
    (co : Cont) : Config × List (Nat × Except Err Int) :=
  match co with
  | .readSettle _ storedP aid deps =>
      let st1 := replaceDependencies aid cfg.st deps
      let st2 := match out with
        | .ok v =>
            updateAtomState aid st1
              { readE := some none, readP := some none, value := some (some v) }
              (some storedP)
        | .error e =>
            updateAtomState aid st1
              { readE := some (some e), readP := some none } (some storedP)
      ({ cfg with st := st2 }, [(storedP, .ok 0)])
  | .depUpdate _ aid =>
      match out with
      | .ok _ => (cfg.withCtx (updateDependentsState fuel env aid cfg.toCtx), [])
      | .error _ => (cfg, [])
  | .writePSettle _ storedP aid =>
      match out with
      | .ok _ =>
          let r := runThunks fuel env (cfg.thunks ++ [.clearWP aid]) cfg.toCtx
          ({ cfg.withCtx r.1 with thunks := r.2 }, [(storedP, .ok 0)])
      | .error e => (cfg, [(storedP, .error e)])
  | .deferredWrite _ aid u =>
      match out with
      | .ok _ =>
          let r := runThunks fuel env (cfg.thunks ++ [.writeT aid u]) cfg.toCtx
          ({ cfg.withCtx r.1 with thunks := r.2 }, [])
      | .error _ => (cfg, [])

/-- Fire a list of continuations of one settled promise in registration
order, collecting the derived settlements. -/
def fireList (fuel : Nat) (env : Env) (out : Except Err Int) :
    Config → List Cont → Config × List (Nat × Except Err Int)
  | cfg, [] => (cfg, [])
  | cfg, co :: rest =>
      let r := fireOne fuel env cfg out co
      let r2 := fireList fuel env out r.1 rest
      (r2.1, r.2 ++ r2.2)

/-- Settle a worklist of promises, each with its settlement outcome:
each one fires (and removes) the continuations watching it, in
registration order; derived settlements are appended to the worklist. -/
def settleAll (fuel : Nat) (env : Env) (cfg : Config) :
    List (Nat × Except Err Int) → Config
  | [] => cfg
  | (p, out) :: rest =>
      match fuel with
      | 0 => cfg
      | Nat.succ n =>
          let fired := cfg.conts.filter (fun co => co.watch = p)
          let cfg1 := { cfg with conts := cfg.conts.filter (fun co => ¬ co.watch = p) }
          let r := fireList n env out cfg1 fired
          settleAll n env r.1 (rest ++ r.2)

/-- Eligibility for eviction (lines 552-558): no in-flight write or read
promise, a dependents set that is empty or contains only the atom
itself, and no current subscriber. -/
def eligible (used : List Nat) (a : Nat) (s : AtomState) : Bool :=
  s.writeP = none ∧ s.readP = none ∧
  (s.deps.length = 0 ∨ (s.deps.length = 1 ∧ a ∈ s.deps)) ∧
  a ∉ used

/-- One sweep pass over the listed keys (lines 549-565): every eligible
atom is copied into the side cache and deleted; the flag records whether
this pass deleted anything. -/
def sweepPass (used : List Nat) : List Nat → State → Cache → State × Cache × Bool
  | [], st, cache => (st, cache, false)
  | a :: rest, st, cache =>
      match mGet st a with
      | none => sweepPass used rest st cache
      | some s =>
          if eligible used a s then
            let r := sweepPass used rest (mDel st a) (mSet cache a s)
            (r.1, r.2.1, true)
          else sweepPass used rest st cache

/-- The GC sweep loop (lines 548-565): repeat full passes until a pass
deletes nothing. -/
def sweep (fuel : Nat) (used : List Nat) (st : State) (cache : Cache) :
    State × Cache :=
  match fuel with
  | 0 => (st, cache)
  | Nat.succ n =>
      match sweepPass used (mKeys st) st cache with
      | (st1, cache1, true) => sweep n used st1 cache1
      | (st1, cache1, false) => (st1, cache1)

/-- External interactions with the store: a top-level read (the `read`
action, with the cache), a top-level write (the `write` action: the
write thunk is queued and the queue drained), the settlement of a source
promise, and the usage-driven GC sweep. -/
inductive Event where
  | readEv (a : Nat)
  | writeEv (a : Nat) (u : Int)
  | settleEv (p : Nat)
  | gcEv (used : List Nat)

/-- One scheduler step per external event. -/
def applyEvent (fuel : Nat) (env : Env) (cfg : Config) : Event → Config
  | .readEv a =>
      cfg.withCtx (readAtomState fuel env (some cfg.cache) a cfg.toCtx).2
  | .writeEv a u =>
      let r := runThunks fuel env (cfg.thunks ++ [.writeT a u]) cfg.toCtx
      { cfg.withCtx r.1 with thunks := r.2 }
  | .settleEv p => settleAll fuel env cfg [(p, env.pout p)]
  | .gcEv used =>
      let r := sweep ((mKeys cfg.st).length + 1) used cfg.st cfg.cache
      { cfg with st := r.1, cache := r.2 }

/-- The initial configuration: empty snapshot, cache, queues. -/
def initConfig : Config := ⟨mCreate, 0, [], [], mCreate⟩

/-- The configuration reached by a sequence of external events. -/
def reach (fuel : Nat) (env : Env) (evs : List Event) : Config :=
  evs.foldl (applyEvent fuel env) initConfig

/-- `runWriteThunk` (lines 470-499) over opaque `State → State` thunks:
with no committed snapshot the queue is left untouched; otherwise thunks
are shifted in FIFO order, each applied to the most recent
pending-or-committed snapshot, a changed result becoming the new pending
snapshot. -/
def runWriteThunkM : Option State → Option State → List (State → State) →
    Option State × List (State → State)
  | none, p, q => (p, q)
  | some _, p, [] => (p, [])
  | some l, p, t :: rest =>
      let prev := p.getD l
      let nxt := t prev
      runWriteThunkM (some l) (if nxt = prev then p else some nxt) rest

/-- The non-`deps` fields of an atom state. -/
def coreOf (s : AtomState) : Option Err × Option Nat × Option Nat × Option Int :=
  (s.readE, s.readP, s.writeP, s.value)

/-- The eventual outcome of one pending promise of a write call, given
`wout`, the settlement outcome of each in-flight write promise: the
write function's own promise settles as the environment says, a
`rejected` promise is already rejected with its error, and a deferral
promise (`writeP.then(...)`, line 364) settles exactly as the in-flight
write promise it chains on — in particular it rejects whenever that
promise rejects. -/
def pendOutcome (env : Env) (wout : Nat → Except Err Unit) : Pend → Except Err Unit
  | .fromProm p =>
      match env.pout p with
      | .ok _ => .ok ()
      | .error e => .error e
  | .rejected e => .error e
  | .deferral q => wout q

/-- The first already-rejected promise in a pending list.  Such promises
are created synchronously rejected (lines 435-439), so they are settled
before any asynchronous chain and win the `Promise.all` race. -/
def firstRejected : List Pend → Option Err
  | [] => none
  | .rejected e :: _ => some e
  | _ :: rest => firstRejected rest

/-- The settlement of the overall promise returned by `write` (the
`Promise.all` loop of lines 450-467).  `Promise.all` rejects with the
first rejection in time: an already-rejected promise settles before any
asynchronous chain and decides the race, and when every pending promise
resolves the overall promise resolves.  When neither holds (only
asynchronous chains reject) the winner depends on settlement timing the
model does not order, so the outcome is left undetermined (`none`). -/
def overallOutcome (env : Env) (wout : Nat → Except Err Unit)
    (pends : List Pend) : Option (Except Err Unit) :=
  match firstRejected pends with
  | some e => some (.error e)
  | none =>
      if pends.all (fun p =>
          match pendOutcome env wout p with
          | .ok _ => true
          | .error _ => false)
      then some (.ok ()) else none

/-- `writeAtom` (lines 349-468) viewed from the caller: the write thunk
runs at once (the committed snapshot is available); a synchronous
re-throw reaches the caller as the error; otherwise the caller gets the
resulting context plus the accumulated pending promises — the overall
write promise exists exactly when that list is nonempty and settles per
`overallOutcome`. -/
def writeAtomTop (fuel : Nat) (env : Env) (aid : Nat) (u : Int) (st : State) :
    Except Err (Ctx × List Pend) :=
  match writeAtomState fuel env aid u ⟨st, 0, []⟩ [] with
  | (_, _, some e) => .error e
  | (c1, pends, none) => .ok (c1, pends)

/-- The per-atom state invariant the engine maintains: at most one of
`readE`/`readP` is set, and whenever a read is pending or errored the
stored value is either unset or the atom's initial value (entering the
pending state resets it to the initial value). -/
def okAt (env : Env) (a : Nat) (s : AtomState) : Prop :=
  (s.readE = none ∨ s.readP = none) ∧
  ((s.readP ≠ none ∨ s.readE ≠ none) →
    s.value = none ∨ s.value = some (env.atoms a).init)

/-- The invariant over a whole snapshot (or the side cache). -/
def stateInv (env : Env) (st : State) : Prop :=
  ∀ a s, mGet st a = some s → okAt env a s

/-- The invariant over a scheduler configuration: snapshot and cache. -/
def configInv (env : Env) (cfg : Config) : Prop :=
  stateInv env cfg.st ∧ stateInv env cfg.cache

/-- The invariant demanded of an optional cache argument. -/
def cacheOptInv (env : Env) (co : Option Cache) : Prop :=
  ∀ cache, co = some cache → stateInv env cache

/-- A three-atom snapshot for the GC witness: atom 0 is unreferenced and
quiescent, atom 1 has a dependent, atom 2 has a subscriber. -/
def gcState : State :=
  [(0, { value := some 1, deps := [] }),
   (1, { value := some 2, deps := [0] }),
   (2, { value := some 3, deps := [] })]

/-- A tracked atom the GC would evict: present with an eligible state. -/
def evictable (used : List Nat) (st : State) (b : Nat) : Bool :=
  match mGet st b with
  | some s => eligible used b s
  | none => false

/-! ### Concrete scenario environments -/

/-- The primitive writable atom `count` with initial value 0: its read is
`get(count)` and its write is `set(count, update)`, as produced by
`atom(0)`. -/
def countAtom : PAtom :=
  { init := 0, read := .getA 0 .ret, write := some (fun u => .setW 0 u .done) }

/-- The derived atom `doubled = get(count) * 2`. -/
def doubledAtom : PAtom :=
  { init := 0, read := .getA 0 (fun v => .ret (v * 2)) }

/-- Environment for the `count`/`doubled` scenario: atom 0 is `count`,
atom 1 is `doubled`. -/
def envCount : Env :=
  { atoms := fun n => if n = 0 then countAtom else if n = 1 then doubledAtom else default
    pout := fun _ => .ok 0 }

/-- Environment with one async atom (id 0, initial 0) whose read returns
the promise with source id 5, which resolves to 42. -/
def envAsync : Env :=
  { atoms := fun n => if n = 0 then { init := 0, read := .retPromise 5 } else default
    pout := fun p => if p = 5 then .ok 42 else .error 1 }

/-- Environment for the pending-reset counterexample: atom 0 is `count`;
atom 1 reads `get(count)` and returns the value 5 when it is 0, else a
promise. -/
def envBranch : Env :=
  { atoms := fun n =>
      if n = 0 then countAtom
      else if n = 1 then
        { init := 0,
          read := .getA 0 (fun v => if v = 0 then .ret 5 else .retPromise 9) }
      else default
    pout := fun _ => .ok 7 }

/-- Environment whose atom 0 has a write function that throws error 3
synchronously. -/
def envThrow : Env :=
  { atoms := fun n =>
      if n = 0 then
        { init := 0, read := .getA 0 .ret, write := some (fun _ => .throwW 3) }
      else default
    pout := fun _ => .ok 0 }

/-- Environment for the error-propagation witness: atom 1 reads
`get(atom 0) * 2`. -/
def envErrDep : Env :=
  { atoms := fun n =>
      if n = 1 then { init := 0, read := .getA 0 (fun v => .ret (v * 2)) }
      else default
    pout := fun _ => .ok 0 }

/-- A configuration in which atom 0's read promise has been replaced
(current `readP` is 9) while a settlement callback for the superseded
stored promise 3 is still outstanding, and atom 1 carries the dependent
edge of atom 0 from the superseded generation. -/
def staleCfg : Config :=
  ⟨[(0, { readP := some 9, value := some 0, deps := [] }),
    (1, { value := some 0, deps := [0] })], 10, [], [], []⟩

/-! ### Basic laws of the immutable map -/

theorem mGet_mSet {α β : Type} [DecidableEq α] (m : ImmutableMap α β) (k j : α)
    (v : β) : mGet (mSet m k v) j = if k = j then some v else mGet m j := by
  induction m with
  | nil => by_cases h : k = j <;> simp [mSet, mGet, h]
  | cons hd t ih =>
      obtain ⟨k', v'⟩ := hd
      by_cases h1 : k' = k
      · subst h1
        by_cases h2 : k' = j <;> simp [mSet, mGet, h2]
      · by_cases h2 : k' = j
        · subst h2
          have hk : ¬ k = k' := fun h => h1 h.symm
          simp [mSet, mGet, h1, hk]
        · simp [mSet, mGet, h1, h2, ih]

theorem mGet_mDel {α β : Type} [DecidableEq α] (m : ImmutableMap α β) (k j : α) :
    mGet (mDel m k) j = if k = j then none else mGet m j := by
  induction m with
  | nil => by_cases h : k = j <;> simp [mDel, mGet, h]
  | cons hd t ih =>
      obtain ⟨k', v'⟩ := hd
      by_cases h1 : k' = k
      · subst h1
        by_cases h2 : k' = j
        · subst h2; simp [mDel, mGet, ih]
        · simp [mDel, mGet, h2, ih]
      · by_cases h2 : k' = j
        · subst h2
          have : k ≠ k' := fun h => h1 h.symm
          simp [mDel, mGet, h1, this]
        · simp [mDel, mGet, h1, h2, ih]

theorem mGet_mMerge_of_not_right {α β : Type} [DecidableEq α]
    (b a : ImmutableMap α β) (j : α) (h : mGet b j = none) :
    mGet (mMerge a b) j = mGet a j := by
  induction b generalizing a with
  | nil => simp [mMerge]
  | cons hd t ih =>
      obtain ⟨k, v⟩ := hd
      by_cases h1 : k = j
      · subst h1; simp [mGet] at h
      · have hn : mGet t j = none := by simpa [mGet, h1] using h
        have := ih (mSet a k v) hn
        simp only [mMerge] at this ⊢
        simp only [List.foldl_cons]
        rw [this, mGet_mSet, if_neg h1]

/-! ### Dependency reconciliation only touches the `deps` field -/

theorem coreOf_mSet_same (st : State) (a : Nat) (s s' : AtomState)
    (hs : mGet st a = some s) (hcore : coreOf s' = coreOf s) (b : Nat) :
    (mGet (mSet st a s') b).map coreOf = (mGet st b).map coreOf := by
  rw [mGet_mSet]
  by_cases h : a = b
  · subst h; rw [hs, if_pos rfl]; simp [hcore]
  · rw [if_neg h]

theorem coreOf_rdPhase1 (aid : Nat) (keys : List Nat) (st : State)
    (ds : List Nat) (b : Nat) :
    (mGet (rdPhase1 aid keys st ds).1 b).map coreOf = (mGet st b).map coreOf := by
  induction keys generalizing st ds with
  | nil => rfl
  | cons a rest ih =>
      cases h : mGet st a with
      | none => simp only [rdPhase1, h]; exact ih st ds
      | some s =>
          simp only [rdPhase1, h]
          by_cases h1 : aid ∈ s.deps
      -- the edge existed: either keep it (and forget the dependency) or drop it
          · simp only [if_pos h1]
            by_cases h2 : a ∈ ds
            · simp only [if_pos h2]; exact ih st (ds.erase a)
            · simp only [if_neg h2]
              rw [ih _ ds]
              exact coreOf_mSet_same st a s { s with deps := s.deps.erase aid } h rfl b
          · simp only [if_neg h1]; exact ih st ds

theorem coreOf_rdPhase2 (aid : Nat) (ks : List Nat) (st : State) (b : Nat) :
    (mGet (rdPhase2 aid ks st) b).map coreOf = (mGet st b).map coreOf := by
  induction ks generalizing st with
  | nil => rfl
  | cons a rest ih =>
      cases h : mGet st a with
      | none => simp only [rdPhase2, h]; exact ih st
      | some s =>
          simp only [rdPhase2, h]
          rw [ih]
          exact coreOf_mSet_same st a s
            { s with deps := if aid ∈ s.deps then s.deps else s.deps ++ [aid] }
            h rfl b

theorem coreOf_replaceDependencies (aid : Nat) (st : State) (ds : List Nat)
    (b : Nat) :
    (mGet (replaceDependencies aid st ds) b).map coreOf = (mGet st b).map coreOf := by
  unfold replaceDependencies
  rw [coreOf_rdPhase2, coreOf_rdPhase1]

theorem rdPhase1_ds_subset (aid : Nat) (keys : List Nat) :
    ∀ st ds x, x ∈ (rdPhase1 aid keys st ds).2 → x ∈ ds := by
  induction keys with
  | nil => intro st ds x hx; exact hx
  | cons a rest ih =>
      intro st ds x hx
      cases hg : mGet st a with
      | none =>
          simp only [rdPhase1, hg] at hx
          exact ih st ds x hx
      | some s =>
          simp only [rdPhase1, hg] at hx
          by_cases h1 : aid ∈ s.deps
          · simp only [if_pos h1] at hx
            by_cases h2 : a ∈ ds
            · simp only [if_pos h2] at hx
              exact List.mem_of_mem_erase (ih st (ds.erase a) x hx)
            · simp only [if_neg h2] at hx
              exact ih _ ds x hx
          · simp only [if_neg h1] at hx
            exact ih st ds x hx

theorem rdPhase1_mGet_nodep (aid : Nat) (keys : List Nat) :
    ∀ st ds b, aid ∉ ((mGet st b).getD default).deps →
      mGet (rdPhase1 aid keys st ds).1 b = mGet st b := by
  induction keys with
  | nil => intro st ds b _; rfl
  | cons a rest ih =>
      intro st ds b hb
      cases hg : mGet st a with
      | none => simp only [rdPhase1, hg]; exact ih st ds b hb
      | some s =>
          simp only [rdPhase1, hg]
          by_cases h1 : aid ∈ s.deps
          · simp only [if_pos h1]
            by_cases h2 : a ∈ ds
            · simp only [if_pos h2]; exact ih st (ds.erase a) b hb
            · simp only [if_neg h2]
              have hab : ¬ a = b := by
                intro h
                subst h
                rw [hg] at hb
                exact hb h1
              have hm : mGet (mSet st a { s with deps := s.deps.erase aid }) b =
                  mGet st b := by
                rw [mGet_mSet, if_neg hab]
              have hb' : aid ∉
                  ((mGet (mSet st a { s with deps := s.deps.erase aid }) b).getD
                    default).deps := by
                rw [hm]; exact hb
              rw [ih _ ds b hb', hm]
          · simp only [if_neg h1]; exact ih st ds b hb

theorem rdPhase2_mGet_notmem (aid : Nat) (ks : List Nat) :
    ∀ st b, b ∉ ks → mGet (rdPhase2 aid ks st) b = mGet st b := by
  induction ks with
  | nil => intro st b _; rfl
  | cons a rest ih =>
      intro st b hb
      have hab : ¬ a = b := fun h => hb (h ▸ List.mem_cons_self a rest)
      have hbrest : b ∉ rest := fun h => hb (List.mem_cons_of_mem a h)
      cases hg : mGet st a with
      | none => simp only [rdPhase2, hg]; exact ih st b hbrest
      | some s =>
          simp only [rdPhase2, hg]
          rw [ih _ b hbrest, mGet_mSet, if_neg hab]

/-- An atom that carries no dependent edge to `aid` and is not among the
new dependencies is left entirely untouched by `replaceDependencies`. -/
theorem replaceDependencies_mGet_untouched (aid : Nat) (st : State)
    (ds : List Nat) (b : Nat)
    (h1 : aid ∉ ((mGet st b).getD default).deps) (h2 : b ∉ ds) :
    mGet (replaceDependencies aid st ds) b = mGet st b := by
  unfold replaceDependencies
  rw [rdPhase2_mGet_notmem aid _ _ _
      (fun hm => h2 (rdPhase1_ds_subset aid (mKeys st) st ds b hm)),
    rdPhase1_mGet_nodep aid (mKeys st) st ds b h1]

theorem mGet_updateAtomState_self_none (aid : Nat) (st : State) (p : UPart)
    (s0 : AtomState) (hs : mGet st aid = some s0) :
    mGet (updateAtomState aid st p none) aid = some (applyPart s0 p) := by
  simp only [updateAtomState]
  simp [hs, mGet_mSet]

theorem mGet_updateAtomState_other (aid b : Nat) (st : State) (p : UPart)
    (pp : Option Nat) (h : ¬ aid = b) :
    mGet (updateAtomState aid st p pp) b = mGet st b := by
  simp only [updateAtomState]
  by_cases hg : pp.isSome ∧ pp ≠ ((mGet st aid).getD { deps := [] }).readP
  · rw [if_pos hg]
  · rw [if_neg hg, mGet_mSet, if_neg h]

/-! ### Invariant preservation building blocks -/

theorem okAt_of_coreOf_eq {env : Env} {a : Nat} {s s' : AtomState}
    (h : coreOf s = coreOf s') (hok : okAt env a s') : okAt env a s := by
  have h1 : s.readE = s'.readE := congrArg (fun t => t.1) h
  have h2 : s.readP = s'.readP := congrArg (fun t => t.2.1) h
  have h4 : s.value = s'.value := congrArg (fun t => t.2.2.2) h
  unfold okAt at hok ⊢
  rw [h1, h2, h4]
  exact hok

theorem stateInv_of_coreOf_eq {env : Env} {st st' : State}
    (h : ∀ b, (mGet st' b).map coreOf = (mGet st b).map coreOf)
    (hst : stateInv env st) : stateInv env st' := by
  intro a s hm
  have ha := h a
  rw [hm] at ha
  cases hg : mGet st a with
  | none => rw [hg] at ha; simp at ha
  | some s2 =>
      rw [hg] at ha
      simp only [Option.map_some'] at ha
      exact okAt_of_coreOf_eq (Option.some.inj ha) (hst a s2 hg)

theorem stateInv_replaceDependencies {env : Env} {st : State} (aid : Nat)
    (ds : List Nat) (hst : stateInv env st) :
    stateInv env (replaceDependencies aid st ds) :=
  stateInv_of_coreOf_eq (fun b => coreOf_replaceDependencies aid st ds b) hst

theorem stateInv_mSet {env : Env} {st : State} {aid : Nat} {s : AtomState}
    (hst : stateInv env st) (hok : okAt env aid s) :
    stateInv env (mSet st aid s) := by
  intro b s' hm
  rw [mGet_mSet] at hm
  by_cases hb : aid = b
  · rw [if_pos hb] at hm
    subst hb
    exact (Option.some.inj hm) ▸ hok
  · rw [if_neg hb] at hm
    exact hst b s' hm

theorem stateInv_updateAtomState {env : Env} (aid : Nat) (st : State)
    (p : UPart) (pp : Option Nat) (hst : stateInv env st)
    (hok : ∀ s0, (okAt env aid s0 ∨ s0 = { deps := [] }) →
      ¬(pp.isSome ∧ pp ≠ s0.readP) → okAt env aid (applyPart s0 p)) :
    stateInv env (updateAtomState aid st p pp) := by
  unfold updateAtomState
  by_cases hg : pp.isSome ∧ pp ≠ ((mGet st aid).getD { deps := [] }).readP
  · rw [if_pos hg]; exact hst
  · rw [if_neg hg]
    apply stateInv_mSet hst
    apply hok _ _ hg
    cases hm : mGet st aid with
    | none => right; simp [hm]
    | some s0 => left; simpa [hm] using hst aid s0 hm

theorem okAt_applyPart_clear (env : Env) (a : Nat) (s0 : AtomState)
    (w : Option (Option Nat)) (v : Option (Option Int)) :
    okAt env a (applyPart s0
      { readE := some none, readP := some none, writeP := w, value := v }) := by
  unfold applyPart okAt
  simp

theorem okAt_applyPart_pending (env : Env) (a : Nat) (s0 : AtomState)
    (q : Nat) (w : Option (Option Nat)) :
    okAt env a (applyPart s0
      { readE := some none, readP := some (some q), writeP := w,
        value := some (some (env.atoms a).init) }) := by
  unfold applyPart okAt
  simp

theorem okAt_applyPart_error (env : Env) (a : Nat) (s0 : AtomState)
    (e : Err) (w : Option (Option Nat)) :
    okAt env a (applyPart s0
      { readE := some (some e), readP := some none, writeP := w,
        value := some none }) := by
  unfold applyPart okAt
  simp

theorem okAt_applyPart_writeP (env : Env) (a : Nat) (s0 : AtomState)
    (w : Option (Option Nat)) (hok : okAt env a s0) :
    okAt env a (applyPart s0 { writeP := w }) := by
  unfold okAt at hok
  unfold applyPart okAt
  simpa using hok

theorem okAt_fresh (env : Env) (a : Nat) :
    okAt env a { deps := [] } := by
  unfold okAt
  simp

theorem coreOf_fields {o : Option AtomState}
    {t : Option Err × Option Nat × Option Nat × Option Int}
    (h : o.map coreOf = some t) :
    (o.getD default).readE = t.1 ∧ (o.getD default).readP = t.2.1 ∧
    (o.getD default).writeP = t.2.2.1 ∧ (o.getD default).value = t.2.2.2 := by
  cases o with
  | none => simp at h
  | some s =>
      simp only [Option.map_some'] at h
      have := Option.some.inj h
      subst this
      exact ⟨rfl, rfl, rfl, rfl⟩

/-- The state invariant is preserved by every engine operation, at every
fuel, for all eight mutually recursive functions at once. -/
theorem engineInv (n : Nat) :
    (∀ env cacheOpt aid c, cacheOptInv env cacheOpt → stateInv env c.st →
      stateInv env (readAtomState n env cacheOpt aid c).2.st) ∧
    (∀ env cacheOpt aid c, cacheOptInv env cacheOpt → stateInv env c.st →
      stateInv env (readAtomStateMain n env cacheOpt aid c).2.st) ∧
    (∀ env cacheOpt selfAid e c deps, cacheOptInv env cacheOpt →
      stateInv env c.st →
      stateInv env (runRead n env cacheOpt selfAid e c deps).2.1.st) ∧
    (∀ env aid c, stateInv env c.st →
      stateInv env (updateDependentsState n env aid c).st) ∧
    (∀ env aid ds c, stateInv env c.st →
      stateInv env (udsList n env aid ds c).st) ∧
    (∀ env aid u c pends, stateInv env c.st →
      stateInv env (writeAtomState n env aid u c pends).1.st) ∧
    (∀ env aid u c pends, stateInv env c.st →
      stateInv env (writeAtomStateRun n env aid u c pends).1.st) ∧
    (∀ env selfAid e c pends, stateInv env c.st →
      stateInv env (runWrite n env selfAid e c pends).1.st) := by
  induction n with
  | zero =>
      refine ⟨?_, ?_, ?_, ?_, ?_, ?_, ?_, ?_⟩
      · intro env co aid c _ hst; exact hst
      · intro env co aid c _ hst; exact hst
      · intro env co selfA e c deps _ hst; exact hst
      · intro env aid c hst; exact hst
      · intro env aid ds c hst; exact hst
      · intro env aid u c pends hst; exact hst
      · intro env aid u c pends hst; exact hst
      · intro env selfA e c pends hst; exact hst
  | succ n ih =>
      obtain ⟨ihA, ihB, ihC, ihD, ihE, ihF, ihG, ihH⟩ := ih
      refine ⟨?_, ?_, ?_, ?_, ?_, ?_, ?_, ?_⟩
      · -- readAtomState
        intro env co aid c hco hst
        show stateInv env (readAtomState (Nat.succ n) env co aid c).2.st
        cases co with
        | none =>
            simp only [readAtomState]
            exact ihB env none aid c hco hst
        | some cache =>
            have hcache : stateInv env cache := hco cache rfl
            simp only [readAtomState]
            cases h1 : mGet c.st aid with
            | some s => simp only [h1]; exact hst
            | none =>
                simp only [h1]
                cases h2 : mGet cache aid with
                | some s =>
                    simp only [h2]
                    exact stateInv_mSet hst (hcache aid s h2)
                | none =>
                    simp only [h2]
                    exact ihB env (some cache) aid c hco hst
      · -- readAtomStateMain
        intro env co aid c hco hst
        show stateInv env (readAtomStateMain (Nat.succ n) env co aid c).2.st
        have hrr := ihC env co aid (env.atoms aid).read c [] hco hst
        cases hr : runRead n env co aid (env.atoms aid).read c [] with
        | mk out rest =>
            obtain ⟨c1, deps2⟩ := rest
            have hc1 : stateInv env c1.st := by rw [hr] at hrr; exact hrr
            cases out with
            | ok voi =>
                cases voi with
                | inl v =>
                    simp only [readAtomStateMain, hr]
                    apply stateInv_replaceDependencies
                    apply stateInv_updateAtomState _ _ _ _ hc1
                    intro s0 _ _
                    exact okAt_applyPart_clear env aid s0 none (some (some v))
                | inr pid =>
                    simp only [readAtomStateMain, hr]
                    apply stateInv_updateAtomState _ _ _ _ hc1
                    intro s0 _ _
                    exact okAt_applyPart_pending env aid s0 c1.pc none
            | error t =>
                cases t with
                | prom p =>
                    simp only [readAtomStateMain, hr]
                    apply stateInv_replaceDependencies
                    apply stateInv_updateAtomState _ _ _ _ hc1
                    intro s0 _ _
                    exact okAt_applyPart_pending env aid s0 p none
                | err e =>
                    simp only [readAtomStateMain, hr]
                    apply stateInv_replaceDependencies
                    apply stateInv_updateAtomState _ _ _ _ hc1
                    intro s0 _ _
                    exact okAt_applyPart_error env aid s0 e none
      · -- runRead
        intro env co selfA e c deps hco hst
        show stateInv env (runRead (Nat.succ n) env co selfA e c deps).2.1.st
        cases e with
        | ret v => exact hst
        | retPromise pid => exact hst
        | throwErr er => exact hst
        | getA a k =>
            simp only [runRead]
            by_cases hself : a = selfA
            · rw [if_pos hself]
              cases hg : mGet c.st a with
              | some s =>
                  simp only [hg]
                  cases hp : s.readP with
                  | some p => simp only [hp]; exact hst
                  | none =>
                      simp only [hp]
                      exact ihC env co selfA _ c _ hco hst
              | none =>
                  simp only [hg]
                  exact ihC env co selfA _ c _ hco hst
            · rw [if_neg hself]
              have hA := ihA env co a c hco hst
              cases hra : readAtomState n env co a c with
              | mk s c1 =>
                  have hc1 : stateInv env c1.st := by rw [hra] at hA; exact hA
                  simp only [hra]
                  cases hre : s.readE with
                  | some er => simp only [hre]; exact hc1
                  | none =>
                      simp only [hre]
                      cases hrp : s.readP with
                      | some p => simp only [hrp]; exact hc1
                      | none =>
                          simp only [hrp]
                          exact ihC env co selfA _ c1 _ hco hc1
      · -- updateDependentsState
        intro env aid c hst
        show stateInv env (updateDependentsState (Nat.succ n) env aid c).st
        cases hg : mGet c.st aid with
        | none => simp only [updateDependentsState, hg]; exact hst
        | some s =>
            simp only [updateDependentsState, hg]
            exact ihE env aid s.deps c hst
      · -- udsList
        intro env aid ds c hst
        show stateInv env (udsList (Nat.succ n) env aid ds c).st
        cases ds with
        | nil => exact hst
        | cons d rest =>
            simp only [udsList]
            by_cases hd : d = aid ∨ (mGet c.st d).isNone = true
            · rw [if_pos hd]
              exact ihE env aid rest c hst
            · rw [if_neg hd]
              have hA := ihA env none d c (fun cache h => Option.noConfusion h) hst
              cases hra : readAtomState n env none d c with
              | mk depS c1 =>
                  have hc1 : stateInv env c1.st := by rw [hra] at hA; exact hA
                  simp only [hra]
                  cases hrp : depS.readP with
                  | some p =>
                      simp only [hrp]
                      exact ihE env aid rest _ hc1
                  | none =>
                      simp only [hrp]
                      exact ihE env aid rest _ (ihD env d c1 hc1)
      · -- writeAtomState
        intro env aid u c pends hst
        show stateInv env (writeAtomState (Nat.succ n) env aid u c pends).1.st
        cases hg : mGet c.st aid with
        | none =>
            simp only [writeAtomState, hg]
            exact ihG env aid u c pends hst
        | some s =>
            simp only [writeAtomState, hg]
            cases hw : s.writeP with
            | some q => simp only [hw]; exact hst
            | none =>
                simp only [hw]
                exact ihG env aid u c pends hst
      · -- writeAtomStateRun
        intro env aid u c pends hst
        show stateInv env (writeAtomStateRun (Nat.succ n) env aid u c pends).1.st
        cases hwf : (env.atoms aid).write with
        | none => simp only [writeAtomStateRun, hwf]; exact hst
        | some wf =>
            simp only [writeAtomStateRun, hwf]
            have hH := ihH env aid (wf u) c pends hst
            cases hr : runWrite n env aid (wf u) c pends with
            | mk c1 rest =>
                obtain ⟨pends1, thrown, promOpt⟩ := rest
                have hc1 : stateInv env c1.st := by rw [hr] at hH; exact hH
                cases thrown with
                | some e =>
                    simp only [hr]
                    cases hpe : pends1.isEmpty with
                    | true => simp only [hpe]; exact hc1
                    | false => exact hc1
                | none =>
                    cases promOpt with
                    | none => simp only [hr]; exact hc1
                    | some wpid =>
                        simp only [hr]
                        apply stateInv_updateAtomState _ _ _ _ hc1
                        intro s0 hs0 _
                        cases hs0 with
                        | inl hok => exact okAt_applyPart_writeP env aid s0 _ hok
                        | inr hfresh =>
                            subst hfresh
                            exact okAt_applyPart_writeP env aid _ _
                              (okAt_fresh env aid)
      · -- runWrite
        intro env selfA e c pends hst
        show stateInv env (runWrite (Nat.succ n) env selfA e c pends).1.st
        cases e with
        | done => exact hst
        | throwW er => exact hst
        | retPromiseW p => exact hst
        | getW a k =>
            simp only [runWrite]
            exact ihH env selfA _ c pends hst
        | setW a v rest =>
            simp only [runWrite]
            by_cases hself : a = selfA
            · rw [if_pos hself]
              have h1 : stateInv env (updateAtomState a c.st
                  { readE := some none, readP := some none,
                    value := some (some v) } none) := by
                apply stateInv_updateAtomState _ _ _ _ hst
                intro s0 _ _
                exact okAt_applyPart_clear env a s0 none (some (some v))
              have h2 := ihD env a
                ⟨updateAtomState a c.st
                  { readE := some none, readP := some none,
                    value := some (some v) } none, c.pc, c.conts⟩ h1
              exact ihH env selfA rest _ pends h2
            · rw [if_neg hself]
              have hF := ihF env a v c pends hst
              cases hws : writeAtomState n env a v c pends with
              | mk c1 rest2 =>
                  obtain ⟨pends1, thrown⟩ := rest2
                  have hc1 : stateInv env c1.st := by rw [hws] at hF; exact hF
                  cases thrown with
                  | some e2 => simp only [hws]; exact hc1
                  | none => simp only [hws]; exact ihH env selfA rest c1 pends1 hc1

theorem stateInv_runThunkD (fuel : Nat) (env : Env) (t : ThunkD) (c : Ctx)
    (hst : stateInv env c.st) :
    stateInv env (runThunkD fuel env t c).1.st := by
  cases t with
  | writeT a u =>
      have hF := (engineInv fuel).2.2.2.2.2.1 env a u c [] hst
      cases hw : writeAtomState fuel env a u c [] with
      | mk c1 rest =>
          obtain ⟨p1, th⟩ := rest
          have hc1 : stateInv env c1.st := by rw [hw] at hF; exact hF
          cases th with
          | some e => simp only [runThunkD, hw]; exact hst
          | none => simp only [runThunkD, hw]; exact hc1
  | clearWP a =>
      show stateInv env (updateAtomState a c.st { writeP := some none } none)
      apply stateInv_updateAtomState _ _ _ _ hst
      intro s0 hs0 _
      cases hs0 with
      | inl hok => exact okAt_applyPart_writeP env a s0 _ hok
      | inr hfresh => subst hfresh; exact okAt_applyPart_writeP env a _ _ (okAt_fresh env a)

theorem stateInv_runThunks (fuel : Nat) (env : Env) (q : List ThunkD) (c : Ctx)
    (hst : stateInv env c.st) :
    stateInv env (runThunks fuel env q c).1.st := by
  induction q generalizing c with
  | nil => exact hst
  | cons t rest ih =>
      have h1 := stateInv_runThunkD fuel env t c hst
      cases hr : runThunkD fuel env t c with
      | mk c1 ab =>
          have hc1 : stateInv env c1.st := by rw [hr] at h1; exact h1
          cases ab with
          | true => simp only [runThunks, hr]; exact hc1
          | false => simp only [runThunks, hr]; exact ih c1 hc1

theorem configInv_fireOne (fuel : Nat) (env : Env) (cfg : Config)
    (out : Except Err Int) (co : Cont) (hinv : configInv env cfg) :
    configInv env (fireOne fuel env cfg out co).1 := by
  obtain ⟨hst, hca⟩ := hinv
  cases co with
  | readSettle watch storedP aid deps =>
      refine ⟨?_, hca⟩
      have hrep : stateInv env (replaceDependencies aid cfg.st deps) :=
        stateInv_replaceDependencies aid deps hst
      show stateInv env
        (fireOne fuel env cfg out (.readSettle watch storedP aid deps)).1.st
      cases out with
      | ok v =>
          simp only [fireOne]
          apply stateInv_updateAtomState _ _ _ _ hrep
          intro s0 _ _
          exact okAt_applyPart_clear env aid s0 none (some (some v))
      | error e =>
          simp only [fireOne]
          apply stateInv_updateAtomState _ _ _ _ hrep
          intro s0 hs0 hg
          have hrpeq : some storedP = s0.readP := by
            by_contra hne
            exact hg ⟨rfl, hne⟩
          constructor
          · right; rfl
          · intro _
            cases hs0 with
            | inl hok =>
                have : s0.readP ≠ none ∨ s0.readE ≠ none := by
                  left; rw [← hrpeq]; exact Option.noConfusion
                simpa [applyPart] using hok.2 this
            | inr hfresh =>
                exfalso
                rw [hfresh] at hrpeq
                exact Option.noConfusion hrpeq
  | depUpdate watch aid =>
      cases out with
      | ok v =>
          exact ⟨(engineInv fuel).2.2.2.1 env aid cfg.toCtx hst, hca⟩
      | error e => exact ⟨hst, hca⟩
  | writePSettle watch storedP aid =>
      cases out with
      | ok v =>
          simp only [fireOne]
          refine ⟨?_, hca⟩
          show stateInv env
            (runThunks fuel env (cfg.thunks ++ [ThunkD.clearWP aid]) cfg.toCtx).1.st
          exact stateInv_runThunks fuel env _ cfg.toCtx hst
      | error e => exact ⟨hst, hca⟩
  | deferredWrite watch aid u =>
      cases out with
      | ok v =>
          simp only [fireOne]
          refine ⟨?_, hca⟩
          show stateInv env
            (runThunks fuel env (cfg.thunks ++ [ThunkD.writeT aid u]) cfg.toCtx).1.st
          exact stateInv_runThunks fuel env _ cfg.toCtx hst
      | error e => exact ⟨hst, hca⟩

theorem configInv_fireList (fuel : Nat) (env : Env) (out : Except Err Int)
    (cs : List Cont) (cfg : Config) (hinv : configInv env cfg) :
    configInv env (fireList fuel env out cfg cs).1 := by
  induction cs generalizing cfg with
  | nil => exact hinv
  | cons co rest ih =>
      have h1 := configInv_fireOne fuel env cfg out co hinv
      simp only [fireList]
      exact ih (fireOne fuel env cfg out co).1 h1

theorem configInv_settleAll (fuel : Nat) (env : Env) (cfg : Config)
    (ws : List (Nat × Except Err Int)) (hinv : configInv env cfg) :
    configInv env (settleAll fuel env cfg ws) := by
  induction fuel generalizing cfg ws with
  | zero =>
      cases ws with
      | nil => exact hinv
      | cons p rest => exact hinv
  | succ n ih =>
      cases ws with
      | nil => exact hinv
      | cons p rest =>
          obtain ⟨p, out⟩ := p
          simp only [settleAll]
          apply ih
          apply configInv_fireList
          exact ⟨hinv.1, hinv.2⟩

/-! ### Claim theorems -/

/-- Claim C9: for the immutable map, `get` after `set` at the same key
returns the written value, `get` after `delete` returns the "not found"
sentinel, and the mutators leave every other key's lookup — and, for a
right-biased `merge`, every key absent from the right map — unchanged,
which together with the purely functional representation expresses
persistence of prior maps. -/
theorem c9_map_roundtrip_persistence {α β : Type} [DecidableEq α]
    (m a b : ImmutableMap α β) (k k' : α) (v : β) (hne : k' ≠ k)
    (hb : mGet b k' = none) :
    mGet (mSet m k v) k = some v ∧
    mGet (mDel m k) k = none ∧
    mGet (mSet m k v) k' = mGet m k' ∧
    mGet (mDel m k) k' = mGet m k' ∧
    mGet (mMerge a b) k' = mGet a k' := by
  have hk : k ≠ k' := fun h => hne h.symm
  refine ⟨?_, ?_, ?_, ?_, ?_⟩
  · rw [mGet_mSet, if_pos rfl]
  · rw [mGet_mDel, if_pos rfl]
  · rw [mGet_mSet, if_neg hk]
  · rw [mGet_mDel, if_neg hk]
  · exact mGet_mMerge_of_not_right b a k' hb

/-- Witness for C9 at concrete maps over `Nat` keys and `Int` values. -/
theorem c9_map_roundtrip_persistence_witness :
    mGet (mSet [(1, (5 : Int))] 1 8) 1 = some 8 ∧
    mGet (mDel [(1, (5 : Int))] 1) 1 = none ∧
    mGet (mSet [(1, (5 : Int))] 1 8) 2 = mGet [(1, (5 : Int))] 2 ∧
    mGet (mDel [(1, (5 : Int))] 1) 2 = mGet [(1, (5 : Int))] 2 ∧
    mGet (mMerge [(2, (7 : Int))] [(3, 9)]) 2 = mGet [(2, (7 : Int))] 2 :=
  c9_map_roundtrip_persistence [(1, 5)] [(2, 7)] [(3, 9)] 1 2 8
    (by decide) (by decide)

/-- Claim C8: with no committed snapshot the thunk queue is left intact
and nothing is applied; with a committed snapshot the queue drains in
FIFO order, each thunk applied to the most recent pending-or-committed
snapshot (expressed as a left fold over the queue); and once a committed
snapshot becomes available, processing the queue kept from the waiting
call gives exactly the same result. -/
theorem c8_thunk_queue_fifo (l : State) (p : Option State)
    (q : List (State → State)) :
    runWriteThunkM none p q = (p, q) ∧
    runWriteThunkM (some l) p q =
      (q.foldl (fun acc t =>
        let prev := acc.getD l
        let nxt := t prev
        if nxt = prev then acc else some nxt) p, []) ∧
    runWriteThunkM (some l) (runWriteThunkM none p q).1
        (runWriteThunkM none p q).2 = runWriteThunkM (some l) p q := by
  have h0 : runWriteThunkM none p q = (p, q) := by cases q <;> rfl
  refine ⟨h0, ?_, by rw [h0]⟩
  induction q generalizing p with
  | nil => rfl
  | cons t rest ih => simpa [runWriteThunkM] using ih _

/-- Claim C3: when an atom's read function returns a promise, reading it
immediately yields a pending state: `readP` is set (to the freshly
allocated stored promise), `readE` is unset, the value equals the atom's
initial value, and the settlement callback is registered.  When the
promise later resolves (here to `v`) while the stored promise is still
current, the atom's state becomes the resolved value with `readE` and
`readP` unset. -/
theorem c3_async_read_pending_then_resolved
    (n : Nat) (env : Env) (aid pid : Nat) (c c1 : Ctx) (deps : List Nat)
    (hrun : runRead n env none aid (env.atoms aid).read c [] =
      (.ok (.inr pid), c1, deps))
    (cfg : Config) (s : AtomState) (watch storedP : Nat) (v : Int)
    (ds2 : List Nat)
    (hs : mGet cfg.st aid = some s) (hsp : s.readP = some storedP) :
    (((readAtomState (n + 2) env none aid c).1).readP = some c1.pc ∧
     ((readAtomState (n + 2) env none aid c).1).readE = none ∧
     ((readAtomState (n + 2) env none aid c).1).value =
       some (env.atoms aid).init ∧
     (readAtomState (n + 2) env none aid c).2.conts =
       c1.conts ++ [.readSettle pid c1.pc aid deps]) ∧
    (((mGet (fireOne n env cfg (.ok v)
        (.readSettle watch storedP aid ds2)).1.st
        aid).getD default).readE = none ∧
     ((mGet (fireOne n env cfg (.ok v)
        (.readSettle watch storedP aid ds2)).1.st
        aid).getD default).readP = none ∧
     ((mGet (fireOne n env cfg (.ok v)
        (.readSettle watch storedP aid ds2)).1.st
        aid).getD default).value = some v) := by
  constructor
  · have hfuel : n + 2 = Nat.succ (Nat.succ n) := rfl
    rw [hfuel]
    simp only [readAtomState, readAtomStateMain, hrun, updateAtomState,
      applyPart]
    simp [mGet_mSet]
  · have hrep := coreOf_replaceDependencies aid cfg.st ds2 aid
    rw [hs] at hrep
    cases h1 : mGet (replaceDependencies aid cfg.st ds2) aid with
    | none => rw [h1] at hrep; simp at hrep
    | some s1 =>
        rw [h1] at hrep
        simp only [Option.map_some'] at hrep
        have hcore : coreOf s1 = coreOf s := Option.some.inj hrep
        have hrp : s1.readP = s.readP := congrArg (fun t => t.2.1) hcore
        simp only [fireOne, updateAtomState, h1, Option.getD_some,
          Option.isSome_some, hrp, hsp, ne_eq, not_true_eq_false,
          and_false, if_false, mGet_mSet, if_pos rfl, applyPart]
        simp [applyPart]

/-- Witness for C3: the atom `asyncVal` (id 0, initial 0) whose read
returns promise 5, which resolves to 42. -/
theorem c3_async_read_witness :
    (((readAtomState 5 envAsync none 0 ⟨[], 0, []⟩).1).readP = some 0 ∧
     ((readAtomState 5 envAsync none 0 ⟨[], 0, []⟩).1).readE = none ∧
     ((readAtomState 5 envAsync none 0 ⟨[], 0, []⟩).1).value =
       some (envAsync.atoms 0).init ∧
     (readAtomState 5 envAsync none 0 ⟨[], 0, []⟩).2.conts =
       [Cont.readSettle 5 0 0 []]) ∧
    (((mGet (fireOne 3 envAsync
        ⟨[(0, { readP := some 0, value := some 0, deps := [] })], 1, [], [], []⟩
        (.ok 42) (.readSettle 5 0 0 [])).1.st 0).getD default).readE = none ∧
     ((mGet (fireOne 3 envAsync
        ⟨[(0, { readP := some 0, value := some 0, deps := [] })], 1, [], [], []⟩
        (.ok 42) (.readSettle 5 0 0 [])).1.st 0).getD default).readP = none ∧
     ((mGet (fireOne 3 envAsync
        ⟨[(0, { readP := some 0, value := some 0, deps := [] })], 1, [], [], []⟩
        (.ok 42) (.readSettle 5 0 0 [])).1.st 0).getD default).value =
       some 42) :=
  c3_async_read_pending_then_resolved 3 envAsync 0 5 ⟨[], 0, []⟩ ⟨[], 0, []⟩ []
    rfl ⟨[(0, { readP := some 0, value := some 0, deps := [] })], 1, [], [], []⟩
    { readP := some 0, value := some 0, deps := [] } 5 0 42 [] rfl rfl

/-- Claim C5: when a tracked atom's stored state carries a read error, a
dependent atom whose read calls `get` on it re-throws that stored error
during the dependent's own read (the first conjunct: the read
interpretation ends in exactly that thrown error, whatever the
continuation), which turns the dependent itself into an errored atom
whose stored and returned state carries the same error with no pending
read — the state a caller of `read` receives. -/
theorem c5_error_propagates_to_dependent
    (n : Nat) (env : Env) (aid bid : Nat) (e : Err) (k : Int → ReadExpr)
    (c : Ctx) (cache : Cache) (s : AtomState)
    (hread : (env.atoms bid).read = .getA aid k)
    (hne : aid ≠ bid)
    (hbst : mGet c.st bid = none) (hbcache : mGet cache bid = none)
    (has : mGet c.st aid = some s) (herr : s.readE = some e) :
    runRead (n + 2) env (some cache) bid (env.atoms bid).read c [] =
      (.error (.err e), c, [aid]) ∧
    ((readAtomState (n + 4) env (some cache) bid c).1).readE = some e ∧
    ((readAtomState (n + 4) env (some cache) bid c).1).readP = none := by
  have eA : readAtomState (n + 1) env (some cache) aid c = (s, c) := by
    show readAtomState (Nat.succ n) env (some cache) aid c = (s, c)
    simp [readAtomState, has]
  have part1 : runRead (n + 2) env (some cache) bid (env.atoms bid).read c [] =
      (.error (.err e), c, [aid]) := by
    rw [hread]
    show runRead (Nat.succ (n + 1)) env (some cache) bid (.getA aid k) c [] = _
    simp [runRead, hne, eA, herr]
  refine ⟨part1, ?_⟩
  have hmain : readAtomState (n + 4) env (some cache) bid c =
      readAtomStateMain (n + 3) env (some cache) bid c := by
    show readAtomState (Nat.succ (n + 3)) env (some cache) bid c = _
    simp [readAtomState, hbst, hbcache]
  rw [hmain]
  have hstep : readAtomStateMain (n + 3) env (some cache) bid c =
      readAtomStateMain (Nat.succ (n + 2)) env (some cache) bid c := rfl
  rw [hstep]
  simp only [readAtomStateMain, part1]
  have hst2 : mGet (updateAtomState bid c.st
      { readE := some (some e), readP := some none, value := some none } none)
      bid = some ⟨some e, none, none, none, []⟩ := by
    simp [updateAtomState, hbst, applyPart, mGet_mSet]
  have hst3 := coreOf_replaceDependencies bid
    (updateAtomState bid c.st
      { readE := some (some e), readP := some none, value := some none } none)
    [aid] bid
  rw [hst2] at hst3
  have hf := coreOf_fields hst3
  exact ⟨hf.1, hf.2.1⟩

/-- Witness for C5: atom 0 stored with read error 7; atom 1 reads
`get(atom 0) * 2` and itself becomes errored with error 7. -/
theorem c5_error_propagates_witness :
    runRead 2 envErrDep (some [])
      1 (envErrDep.atoms 1).read
      ⟨[(0, { readE := some 7, value := some 0, deps := [] })], 0, []⟩ [] =
      (.error (.err 7),
        ⟨[(0, { readE := some 7, value := some 0, deps := [] })], 0, []⟩, [0]) ∧
    ((readAtomState 4 envErrDep (some []) 1
      ⟨[(0, { readE := some 7, value := some 0, deps := [] })], 0, []⟩).1).readE =
      some 7 ∧
    ((readAtomState 4 envErrDep (some []) 1
      ⟨[(0, { readE := some 7, value := some 0, deps := [] })], 0, []⟩).1).readP =
      none :=
  c5_error_propagates_to_dependent 0 envErrDep 0 1 7 (fun v => .ret (v * 2))
    ⟨[(0, { readE := some 7, value := some 0, deps := [] })], 0, []⟩ []
    { readE := some 7, value := some 0, deps := [] }
    rfl (by decide) rfl rfl rfl rfl

theorem getD_coreOf_eq {o o' : Option AtomState}
    (h : o.map coreOf = o'.map coreOf) :
    coreOf (o.getD default) = coreOf (o'.getD default) := by
  cases o <;> cases o' <;> simp_all

/-- Claim C10 counterexample: settling a superseded read promise does
not leave the snapshot entirely unchanged.  In `staleCfg` atom 0's
current read promise is 9 while the firing settlement callback guards on
the stored promise 3; the guarded value update is skipped and atom 0's
entry survives intact, yet the callback's dependency reconciliation
(which the source runs before the guard, Provider.ts lines 232-239)
still strips atom 0 from atom 1's dependents, so the snapshot changes. -/
theorem c10_superseded_settle_counterexample :
    (fireOne 3 envAsync staleCfg (.ok 42) (.readSettle 5 3 0 [])).1.st ≠
      staleCfg.st ∧
    mGet (fireOne 3 envAsync staleCfg (.ok 42) (.readSettle 5 3 0 [])).1.st 1 =
      some { value := some 0, deps := [] } ∧
    mGet staleCfg.st 1 = some { value := some 0, deps := [0] } ∧
    mGet (fireOne 3 envAsync staleCfg (.ok 42) (.readSettle 5 3 0 [])).1.st 0 =
      mGet staleCfg.st 0 := by
  refine ⟨by decide, by decide, by decide, by decide⟩

/-- Claim C10 (amended): when a read promise settles (with either
outcome) but is no longer the atom's current `readP`, the guarded
partial update (value, read error, read promise) is skipped, so every
atom's non-`deps` fields are exactly as before — only the dependency
edges may still be reconciled, since `replaceDependencies` runs before
the guard. -/
theorem c10_superseded_settle_frame
    (fuel : Nat) (env : Env) (cfg : Config) (out : Except Err Int)
    (watch storedP aid : Nat) (deps : List Nat) (b : Nat)
    (hstale : ((mGet cfg.st aid).getD default).readP ≠ some storedP) :
    (mGet (fireOne fuel env cfg out
      (.readSettle watch storedP aid deps)).1.st b).map
      coreOf = (mGet cfg.st b).map coreOf := by
  have hrep := coreOf_replaceDependencies aid cfg.st deps
  have hgf := getD_coreOf_eq (hrep aid)
  have hrp : ((mGet (replaceDependencies aid cfg.st deps) aid).getD
      default).readP = ((mGet cfg.st aid).getD default).readP :=
    congrArg (fun t => t.2.1) hgf
  have hne' : some storedP ≠
      ((mGet (replaceDependencies aid cfg.st deps) aid).getD default).readP := by
    rw [hrp]; exact fun h => hstale h.symm
  simp only [fireOne]
  cases out with
  | ok v =>
      simp only [updateAtomState]
      rw [if_pos ⟨by simp, hne'⟩]
      exact hrep b
  | error er =>
      simp only [updateAtomState]
      rw [if_pos ⟨by simp, hne'⟩]
      exact hrep b

/-- Witness for the amended C10 at the concrete stale configuration:
atom 1's non-`deps` fields survive the superseded settlement. -/
theorem c10_superseded_settle_frame_witness :
    (mGet (fireOne 3 envAsync staleCfg (.ok 42)
      (.readSettle 5 3 0 [])).1.st 1).map
      coreOf = (mGet staleCfg.st 1).map coreOf :=
  c10_superseded_settle_frame 3 envAsync staleCfg (.ok 42) 5 3 0 [] 1
    (by decide)

/-- Claim C2 counterexample: the effect of a deferred write is not
always applied after the in-flight write settles.  The source registers
the deferred write with `.then` only (line 364), so when the in-flight
write promise rejects the continuation never runs.  Concretely, with
`write(count, 1)` deferred behind promise 4, settling 4 by rejection
consumes the continuation, queues no thunk, and leaves atom 0's value
at 0 — the second write's effect is never applied, neither at
settlement nor afterwards. -/
theorem c2_dropped_on_rejection_counterexample :
    settleAll 11 envCount
      ⟨[(0, { value := some 0, deps := [] })], 0,
        [.deferredWrite 4 0 1], [], []⟩ [(4, .error 9)] =
      ⟨[(0, { value := some 0, deps := [] })], 0, [], [], []⟩ ∧
    ((mGet (settleAll 11 envCount
      ⟨[(0, { value := some 0, deps := [] })], 0,
        [.deferredWrite 4 0 1], [], []⟩ [(4, .error 9)]).st 0).getD
      default).value = some 0 ∧
    ((mGet (settleAll 11 envCount
      ⟨[(0, { value := some 0, deps := [] })], 0,
        [.deferredWrite 4 0 1], [], []⟩ [(4, .error 9)]).st 0).getD
      default).value ≠ some 1 := by
  refine ⟨by decide, by decide, by decide⟩

/-- Claim C2 (amended): writes to one atom serialize behind an in-flight
write.  First conjunct: a write submitted while the atom has an
outstanding write promise `q` changes nothing now — it only registers a
continuation behind `q` (and the deferral promise the caller awaits).
Second conjunct: when `q` settles by resolving, exactly that deferred
write executes, as a thunk applied to the snapshot current at
settlement time.  Third conjunct: settling any other promise, with any
outcome, leaves the deferred write untouched, so the second write's
effect cannot occur before the first settles.  Fourth conjunct: when
`q` settles by rejecting, the deferred write is discarded without ever
applying — the source registers it with `.then` only (line 364). -/
theorem c2_deferred_write_serialization
    (n : Nat) (env : Env) (aid : Nat) (u w : Int) (c : Ctx)
    (pends : List Pend) (s : AtomState) (q : Nat) (st0 : State) (pc0 : Nat)
    (cache0 : Cache) (c1 : Ctx) (pends1 : List Pend) (p : Nat)
    (out : Except Err Int) (er : Err)
    (hs : mGet c.st aid = some s) (hwp : s.writeP = some q)
    (hw : writeAtomState n env aid u ⟨st0, pc0, []⟩ [] = (c1, pends1, none))
    (hnp : p ≠ q) :
    writeAtomState (n + 1) env aid u c pends =
      ({ c with conts := c.conts ++ [.deferredWrite q aid u] },
        pends ++ [.deferral q], none) ∧
    settleAll (n + 1) env ⟨st0, pc0, [.deferredWrite q aid u], [], cache0⟩
        [(q, .ok w)] =
      ⟨c1.st, c1.pc, c1.conts, [], cache0⟩ ∧
    settleAll (n + 1) env ⟨st0, pc0, [.deferredWrite q aid u], [], cache0⟩
        [(p, out)] =
      ⟨st0, pc0, [.deferredWrite q aid u], [], cache0⟩ ∧
    settleAll (n + 1) env ⟨st0, pc0, [.deferredWrite q aid u], [], cache0⟩
        [(q, .error er)] =
      ⟨st0, pc0, [], [], cache0⟩ := by
  have hqp : ¬ q = p := fun h => hnp h.symm
  refine ⟨?_, ?_, ?_, ?_⟩
  · show writeAtomState (Nat.succ n) env aid u c pends = _
    simp [writeAtomState, hs, hwp]
  · show settleAll (Nat.succ n) env
      ⟨st0, pc0, [.deferredWrite q aid u], [], cache0⟩ [(q, .ok w)] = _
    simp only [settleAll, List.filter, Cont.watch, decide_True,
      Bool.not_true, decide_not]
    simp only [fireList, fireOne, Config.toCtx, Config.withCtx,
      List.nil_append, runThunks, runThunkD, hw]
    simp [settleAll]
  · show settleAll (Nat.succ n) env
      ⟨st0, pc0, [.deferredWrite q aid u], [], cache0⟩ [(p, out)] = _
    simp only [settleAll, List.filter, Cont.watch, hqp, decide_False,
      Bool.not_false, decide_not]
    simp [fireList, settleAll]
  · show settleAll (Nat.succ n) env
      ⟨st0, pc0, [.deferredWrite q aid u], [], cache0⟩ [(q, .error er)] = _
    simp only [settleAll, List.filter, Cont.watch, decide_True,
      Bool.not_true, decide_not]
    simp only [fireList, fireOne]
    simp [settleAll]

/-- Witness for the amended C2 with `count` (atom 0): a write of 1
submitted while write promise 4 is in flight is deferred; resolving 4
then applies it; settling promise 7 leaves it queued; rejecting 4
drops it. -/
theorem c2_deferred_write_serialization_witness :
    writeAtomState 11 envCount 0 1
      ⟨[(0, { writeP := some 4, value := some 0, deps := [] })], 0, []⟩ [] =
      (⟨[(0, { writeP := some 4, value := some 0, deps := [] })], 0,
        [.deferredWrite 4 0 1]⟩, [.deferral 4], none) ∧
    settleAll 11 envCount
      ⟨[(0, { value := some 0, deps := [] })], 0,
        [.deferredWrite 4 0 1], [], []⟩ [(4, .ok 0)] =
      ⟨[(0, { value := some 1, deps := [] })], 0, [], [], []⟩ ∧
    settleAll 11 envCount
      ⟨[(0, { value := some 0, deps := [] })], 0,
        [.deferredWrite 4 0 1], [], []⟩ [(7, .ok 0)] =
      ⟨[(0, { value := some 0, deps := [] })], 0,
        [.deferredWrite 4 0 1], [], []⟩ ∧
    settleAll 11 envCount
      ⟨[(0, { value := some 0, deps := [] })], 0,
        [.deferredWrite 4 0 1], [], []⟩ [(4, .error 9)] =
      ⟨[(0, { value := some 0, deps := [] })], 0, [], [], []⟩ :=
  c2_deferred_write_serialization 10 envCount 0 1 0
    ⟨[(0, { writeP := some 4, value := some 0, deps := [] })], 0, []⟩ []
    { writeP := some 4, value := some 0, deps := [] } 4
    [(0, { value := some 0, deps := [] })] 0 []
    ⟨[(0, { value := some 1, deps := [] })], 0, []⟩ [] 7 (.ok 0) 9
    rfl rfl (by decide) (by decide)

/-- Claim C6: when the write function throws error `e`: with no pending
promises the error is re-thrown synchronously to the caller of `write`
and the aborted thunk leaves the snapshot untouched (first conjunct);
with pending promises outstanding the call returns normally carrying
exactly the context the successful prefix built — the catch block adds
no state update, only the synchronously rejected promise (second
conjunct); that already-rejected promise is settled before any
asynchronous chain, so unless an earlier nested catch already rejected
synchronously, the overall write promise rejects with `e` whatever the
other chains do, for every settlement of the in-flight write promises
(third conjunct).  In no case is the error written into atom state. -/
theorem c6_write_error_policy
    (n : Nat) (env : Env) (wout : Nat → Except Err Unit) (aid : Nat) (u : Int)
    (st : State) (e : Err) (wf : Int → WriteExpr) (c1 : Ctx)
    (pends1 : List Pend) (pr : Option Nat)
    (hnw : ∀ s, mGet st aid = some s → s.writeP = none)
    (hwf : (env.atoms aid).write = some wf)
    (hrun : runWrite n env aid (wf u) ⟨st, 0, []⟩ [] = (c1, pends1, some e, pr)) :
    (pends1 = [] → writeAtomTop (n + 2) env aid u st = .error e ∧
      (runThunkD (n + 2) env (.writeT aid u) ⟨st, 0, []⟩).1.st = st ∧
      (runThunkD (n + 2) env (.writeT aid u) ⟨st, 0, []⟩).2 = true) ∧
    (pends1 ≠ [] → writeAtomTop (n + 2) env aid u st =
      .ok (c1, pends1 ++ [.rejected e])) ∧
    (firstRejected pends1 = none →
      overallOutcome env wout (pends1 ++ [.rejected e]) = some (.error e)) := by
  have h1 : writeAtomState (n + 2) env aid u ⟨st, 0, []⟩ [] =
      writeAtomStateRun (n + 1) env aid u ⟨st, 0, []⟩ [] := by
    show writeAtomState (Nat.succ (n + 1)) env aid u ⟨st, 0, []⟩ [] = _
    cases hg : mGet st aid with
    | none => simp [writeAtomState, hg]
    | some s =>
        have hwn := hnw s hg
        simp [writeAtomState, hg, hwn]
  have h2 : writeAtomStateRun (n + 1) env aid u ⟨st, 0, []⟩ [] =
      (if pends1.isEmpty then (c1, pends1, some e)
       else (c1, pends1 ++ [.rejected e], none)) := by
    show writeAtomStateRun (Nat.succ n) env aid u ⟨st, 0, []⟩ [] = _
    simp only [writeAtomStateRun, hwf, hrun]
  refine ⟨?_, ?_, ?_⟩
  · intro hemp
    subst hemp
    refine ⟨?_, ?_, ?_⟩
    · simp only [writeAtomTop, h1, h2, List.isEmpty_nil, if_true]
    · simp only [runThunkD, h1, h2, List.isEmpty_nil, if_true]
    · simp only [runThunkD, h1, h2, List.isEmpty_nil, if_true]
  · intro hne2
    have hemp : pends1.isEmpty = false := by
      cases pends1 with
      | nil => exact absurd rfl hne2
      | cons a t => rfl
    simp only [writeAtomTop, h1, h2, hemp, Bool.false_eq_true, if_false]
  · intro hfr
    have key : ∀ l : List Pend, firstRejected l = none →
        firstRejected (l ++ [Pend.rejected e]) = some e := by
      intro l
      induction l with
      | nil => intro _; rfl
      | cons a t ih =>
          intro h0
          cases a with
          | fromProm p2 =>
              simp only [List.cons_append, firstRejected] at h0 ⊢
              exact ih h0
          | rejected e2 => simp [firstRejected] at h0
          | deferral q2 =>
              simp only [List.cons_append, firstRejected] at h0 ⊢
              exact ih h0
    simp only [overallOutcome, key pends1 hfr]

/-- Witness for C6: atom 0 of `envThrow`, whose write throws error 3
with no asynchronous chain: `write` re-throws 3 synchronously, the
aborted thunk leaves the snapshot unchanged, and the rejected promise
decides the overall outcome. -/
theorem c6_write_error_policy_witness :
    (([] : List Pend) = [] → writeAtomTop 3 envThrow 0 0 [] = .error 3 ∧
      (runThunkD 3 envThrow (.writeT 0 0) ⟨[], 0, []⟩).1.st = [] ∧
      (runThunkD 3 envThrow (.writeT 0 0) ⟨[], 0, []⟩).2 = true) ∧
    (([] : List Pend) ≠ [] → writeAtomTop 3 envThrow 0 0 [] =
      .ok (⟨[], 0, []⟩, [] ++ [.rejected 3])) ∧
    (firstRejected [] = none →
      overallOutcome envThrow (fun _ => .ok ()) ([] ++ [.rejected 3]) =
        some (.error 3)) :=
  c6_write_error_policy 1 envThrow (fun _ => .ok ()) 0 0 [] 3
    (fun _ => .throwW 3) ⟨[], 0, []⟩ [] none (fun s h => by cases h) rfl rfl

theorem evictable_congr (used : List Nat) {st st' : State} (b : Nat)
    (h : mGet st b = mGet st' b) :
    evictable used st b = evictable used st' b := by
  unfold evictable; rw [h]

theorem mem_mKeys_of_mGet {st : State} {b : Nat} {s : AtomState}
    (h : mGet st b = some s) : b ∈ mKeys st := by
  induction st with
  | nil => simp [mGet] at h
  | cons hd t ih =>
      obtain ⟨k, v⟩ := hd
      by_cases hk : k = b
      · subst hk; simp [mKeys]
      · simp only [mGet, if_neg hk] at h
        simp [mKeys]
        exact Or.inr (by simpa [mKeys] using ih h)

theorem sweepPass_mGet (used : List Nat) (keys : List Nat) (st : State)
    (cache : Cache) (b : Nat) :
    mGet (sweepPass used keys st cache).1 b =
      if b ∈ keys ∧ evictable used st b = true then none else mGet st b := by
  induction keys generalizing st cache with
  | nil => simp [sweepPass]
  | cons a rest ih =>
      cases hg : mGet st a with
      | none =>
          simp only [sweepPass, hg]
          rw [ih]
          by_cases hb : b = a
          · subst hb
            have hev : evictable used st b = false := by simp [evictable, hg]
            simp [hev]
          · simp [List.mem_cons, hb]
      | some s =>
          by_cases hel : eligible used a s = true
          · simp only [sweepPass, hg, hel, if_true]
            rw [ih]
            by_cases hb : b = a
            · subst hb
              have h1 : mGet (mDel st b) b = none := by
                rw [mGet_mDel, if_pos rfl]
              have hev : evictable used (mDel st b) b = false := by
                simp [evictable, h1]
              have hevst : evictable used st b = true := by
                simp [evictable, hg, hel]
              simp [hev, h1, hevst]
            · have h1 : mGet (mDel st a) b = mGet st b := by
                rw [mGet_mDel, if_neg (fun h => hb h.symm)]
              rw [evictable_congr used b h1, h1]
              simp [List.mem_cons, hb]
          · simp only [sweepPass, hg, if_neg hel]
            rw [ih]
            by_cases hb : b = a
            · subst hb
              have hev : evictable used st b = false := by
                simp only [evictable, hg]
                simpa using hel
              simp [hev]
            · simp [List.mem_cons, hb]

theorem sweepPass_cacheGet (used : List Nat) (keys : List Nat) (st : State)
    (cache : Cache) (b : Nat) :
    mGet (sweepPass used keys st cache).2.1 b =
      if b ∈ keys ∧ evictable used st b = true then mGet st b
      else mGet cache b := by
  induction keys generalizing st cache with
  | nil => simp [sweepPass]
  | cons a rest ih =>
      cases hg : mGet st a with
      | none =>
          simp only [sweepPass, hg]
          rw [ih]
          by_cases hb : b = a
          · subst hb
            have hev : evictable used st b = false := by simp [evictable, hg]
            simp [hev]
          · simp [List.mem_cons, hb]
      | some s =>
          by_cases hel : eligible used a s = true
          · simp only [sweepPass, hg, hel, if_true]
            rw [ih]
            by_cases hb : b = a
            · subst hb
              have h1 : mGet (mDel st b) b = none := by
                rw [mGet_mDel, if_pos rfl]
              have hev : evictable used (mDel st b) b = false := by
                simp [evictable, h1]
              have hevst : evictable used st b = true := by
                simp [evictable, hg, hel]
              simp [hev, hevst, hg, mGet_mSet]
            · have h1 : mGet (mDel st a) b = mGet st b := by
                rw [mGet_mDel, if_neg (fun h => hb h.symm)]
              have h2 : mGet (mSet cache a s) b = mGet cache b := by
                rw [mGet_mSet, if_neg (fun h => hb h.symm)]
              rw [evictable_congr used b h1, h1, h2]
              simp [List.mem_cons, hb]
          · simp only [sweepPass, hg, if_neg hel]
            rw [ih]
            by_cases hb : b = a
            · subst hb
              have hev : evictable used st b = false := by
                simp only [evictable, hg]
                simpa using hel
              simp [hev]
            · simp [List.mem_cons, hb]

theorem sweepPass_noop (used : List Nat) (keys : List Nat) (st : State)
    (cache : Cache) (h : ∀ a ∈ keys, evictable used st a = false) :
    sweepPass used keys st cache = (st, cache, false) := by
  induction keys with
  | nil => rfl
  | cons a rest ih =>
      have hrest : ∀ x ∈ rest, evictable used st x = false :=
        fun x hx => h x (List.mem_cons_of_mem a hx)
      cases hg : mGet st a with
      | none => simp only [sweepPass, hg]; exact ih hrest
      | some s =>
          have ha := h a (List.mem_cons_self a rest)
          have hel : ¬ eligible used a s = true := by
            simp only [evictable, hg] at ha
            simp [ha]
          simp only [sweepPass, hg, if_neg hel]
          exact ih hrest

theorem evictable_after_pass (used : List Nat) (st : State) (cache : Cache)
    (b : Nat) :
    evictable used (sweepPass used (mKeys st) st cache).1 b = false := by
  by_cases hev : evictable used st b = true
  · have hmem : b ∈ mKeys st := by
      cases hg : mGet st b with
      | none => simp [evictable, hg] at hev
      | some s => exact mem_mKeys_of_mGet hg
    have h1 := sweepPass_mGet used (mKeys st) st cache b
    rw [if_pos ⟨hmem, hev⟩] at h1
    simp [evictable, h1]
  · have h1 := sweepPass_mGet used (mKeys st) st cache b
    rw [if_neg (fun hc => hev hc.2)] at h1
    rw [evictable_congr used b h1]
    simpa using hev

theorem sweep_fix (n : Nat) (used : List Nat) (st : State) (cache : Cache) :
    sweep (n + 2) used st cache =
      ((sweepPass used (mKeys st) st cache).1,
       (sweepPass used (mKeys st) st cache).2.1) := by
  have hnoop := sweepPass_noop used
    (mKeys (sweepPass used (mKeys st) st cache).1)
    (sweepPass used (mKeys st) st cache).1
    (sweepPass used (mKeys st) st cache).2.1
    (fun a _ => evictable_after_pass used st cache a)
  show sweep (Nat.succ (n + 1)) used st cache = _
  cases hp : sweepPass used (mKeys st) st cache with
  | mk st1 r2 =>
      cases r2 with
      | mk cache1 flag =>
          rw [hp] at hnoop
          cases flag
          · simp only [sweep, hp]
          · simp only [sweep, hp]
            show sweep (Nat.succ n) used st1 cache1 = _
            simp only [sweep, hnoop]

theorem stateInv_sweepPass_st (env : Env) (used : List Nat) (keys : List Nat)
    (st : State) (cache : Cache) (hst : stateInv env st) :
    stateInv env (sweepPass used keys st cache).1 := by
  intro b s hm
  rw [sweepPass_mGet] at hm
  by_cases hc : b ∈ keys ∧ evictable used st b = true
  · rw [if_pos hc] at hm; exact Option.noConfusion hm
  · rw [if_neg hc] at hm; exact hst b s hm

theorem stateInv_sweepPass_cache (env : Env) (used : List Nat)
    (keys : List Nat) (st : State) (cache : Cache) (hst : stateInv env st)
    (hca : stateInv env cache) :
    stateInv env (sweepPass used keys st cache).2.1 := by
  intro b s hm
  rw [sweepPass_cacheGet] at hm
  by_cases hc : b ∈ keys ∧ evictable used st b = true
  · rw [if_pos hc] at hm; exact hst b s hm
  · rw [if_neg hc] at hm; exact hca b s hm

theorem stateInv_sweep (env : Env) (fuel : Nat) (used : List Nat) (st : State)
    (cache : Cache) (hst : stateInv env st) (hca : stateInv env cache) :
    stateInv env (sweep fuel used st cache).1 ∧
    stateInv env (sweep fuel used st cache).2 := by
  induction fuel generalizing st cache with
  | zero => exact ⟨hst, hca⟩
  | succ n ih =>
      have h1 := stateInv_sweepPass_st env used (mKeys st) st cache hst
      have h2 := stateInv_sweepPass_cache env used (mKeys st) st cache hst hca
      cases hp : sweepPass used (mKeys st) st cache with
      | mk st1 rest =>
          obtain ⟨cache1, flag⟩ := rest
          have hst1 : stateInv env st1 := by rw [hp] at h1; exact h1
          have hca1 : stateInv env cache1 := by rw [hp] at h2; exact h2
          cases flag with
          | true => simp only [sweep, hp]; exact ih st1 cache1 hst1 hca1
          | false => simp only [sweep, hp]; exact ⟨hst1, hca1⟩

theorem configInv_applyEvent (fuel : Nat) (env : Env) (cfg : Config)
    (ev : Event) (hinv : configInv env cfg) :
    configInv env (applyEvent fuel env cfg ev) := by
  obtain ⟨hst, hca⟩ := hinv
  cases ev with
  | readEv a =>
      refine ⟨?_, hca⟩
      have hco : cacheOptInv env (some cfg.cache) :=
        fun cache h => (Option.some.inj h) ▸ hca
      exact (engineInv fuel).1 env (some cfg.cache) a cfg.toCtx hco hst
  | writeEv a u =>
      refine ⟨?_, hca⟩
      exact stateInv_runThunks fuel env (cfg.thunks ++ [.writeT a u]) cfg.toCtx hst
  | settleEv p =>
      exact configInv_settleAll fuel env cfg [(p, env.pout p)] ⟨hst, hca⟩
  | gcEv used =>
      have h := stateInv_sweep env ((mKeys cfg.st).length + 1) used cfg.st
        cfg.cache hst hca
      exact ⟨h.1, h.2⟩

theorem configInv_reach (fuel : Nat) (env : Env) (evs : List Event) :
    configInv env (reach fuel env evs) := by
  have hinit : configInv env initConfig := by
    constructor
    · intro a s hm; exact Option.noConfusion hm
    · intro a s hm; exact Option.noConfusion hm
  show configInv env (evs.foldl (applyEvent fuel env) initConfig)
  generalize hgen : initConfig = cfg0
  rw [hgen] at hinit
  clear hgen
  induction evs generalizing cfg0 with
  | nil => exact hinit
  | cons ev rest ih =>
      simp only [List.foldl_cons]
      exact ih (applyEvent fuel env cfg0 ev)
        (configInv_applyEvent fuel env cfg0 ev hinit)

/-- Claim C7: the GC sweep evicts a tracked atom exactly when it has no
outstanding read or write promise, a dependents set that is empty or
self-only, and no subscriber (first conjunct); the loop reaches a fixed
point — one further pass over the result deletes nothing (second
conjunct); an evicted atom's last state is preserved in the side cache
(third conjunct) and the next read reuses it, re-inserting it into the
snapshot rather than recomputing (fourth conjunct). -/
theorem c7_gc_sweep
    (n m pc : Nat) (env : Env) (used : List Nat) (st : State) (cache : Cache)
    (aid : Nat) (s : AtomState) (cs : List Cont)
    (hs : mGet st aid = some s) :
    (mGet (sweep (n + 2) used st cache).1 aid = none ↔
      eligible used aid s = true) ∧
    sweepPass used (mKeys (sweep (n + 2) used st cache).1)
        (sweep (n + 2) used st cache).1 (sweep (n + 2) used st cache).2 =
      ((sweep (n + 2) used st cache).1, (sweep (n + 2) used st cache).2,
        false) ∧
    (eligible used aid s = true →
      mGet (sweep (n + 2) used st cache).2 aid = some s) ∧
    (eligible used aid s = true →
      readAtomState (m + 1) env (some (sweep (n + 2) used st cache).2) aid
          ⟨(sweep (n + 2) used st cache).1, pc, cs⟩ =
        (s, ⟨mSet (sweep (n + 2) used st cache).1 aid s, pc, cs⟩)) := by
  have hsf := sweep_fix n used st cache
  have hev : evictable used st aid = eligible used aid s := by
    simp [evictable, hs]
  have hmem : aid ∈ mKeys st := mem_mKeys_of_mGet hs
  have hm := sweepPass_mGet used (mKeys st) st cache aid
  have hc := sweepPass_cacheGet used (mKeys st) st cache aid
  have part1 : mGet (sweep (n + 2) used st cache).1 aid = none ↔
      eligible used aid s = true := by
    rw [hsf]
    constructor
    · intro hnone
      by_cases he : eligible used aid s = true
      · exact he
      · exfalso
        rw [if_neg (fun hcond => he (hev ▸ hcond.2))] at hm
        rw [hm, hs] at hnone
        exact Option.noConfusion hnone
    · intro he
      rw [if_pos ⟨hmem, hev.trans he⟩] at hm
      exact hm
  refine ⟨part1, ?_, ?_, ?_⟩
  · rw [hsf]
    exact sweepPass_noop used (mKeys (sweepPass used (mKeys st) st cache).1)
      (sweepPass used (mKeys st) st cache).1
      (sweepPass used (mKeys st) st cache).2.1
      (fun a _ => evictable_after_pass used st cache a)
  · intro he
    rw [hsf]
    rw [if_pos ⟨hmem, hev.trans he⟩] at hc
    rw [hc, hs]
  · intro he
    have hnone := part1.mpr he
    have hcget : mGet (sweep (n + 2) used st cache).2 aid = some s := by
      rw [hsf]
      rw [if_pos ⟨hmem, hev.trans he⟩] at hc
      rw [hc, hs]
    show readAtomState (Nat.succ m) env (some (sweep (n + 2) used st cache).2)
        aid ⟨(sweep (n + 2) used st cache).1, pc, cs⟩ = _
    simp [readAtomState, hnone, hcget]

/-- Witness for C7: in `gcState` with atom 2 subscribed, atom 0 (no
promise, no dependents, no subscriber) is evicted, cached, and reused on
the next read; atoms 1 and 2 stay. -/
theorem c7_gc_sweep_witness :
    (mGet (sweep 2 [2] gcState []).1 0 = none ↔
      eligible [2] 0 { value := some 1, deps := [] } = true) ∧
    sweepPass [2] (mKeys (sweep 2 [2] gcState []).1) (sweep 2 [2] gcState []).1
        (sweep 2 [2] gcState []).2 =
      ((sweep 2 [2] gcState []).1, (sweep 2 [2] gcState []).2, false) ∧
    (eligible [2] 0 { value := some 1, deps := [] } = true →
      mGet (sweep 2 [2] gcState []).2 0 =
        some { value := some 1, deps := [] }) ∧
    (eligible [2] 0 { value := some 1, deps := [] } = true →
      readAtomState 4 envCount (some (sweep 2 [2] gcState []).2) 0
          ⟨(sweep 2 [2] gcState []).1, 7, []⟩ =
        ({ value := some 1, deps := [] },
          ⟨mSet (sweep 2 [2] gcState []).1 0 { value := some 1, deps := [] },
            7, []⟩)) :=
  c7_gc_sweep 0 3 7 envCount [2] gcState [] 0
    { value := some 1, deps := [] } [] rfl

/-- Claim C4 counterexample: `value` does not always hold the last
successfully resolved value.  In `envBranch`, atom 1 resolves to 5
(initial value 0); writing atom 0 re-runs atom 1's read, which now
returns a promise, and the re-entered pending state resets `value` to
the initial value 0 — not the last resolved value 5 (Provider.ts line
276: `value: promise ? atom.init : value`). -/
theorem c4_value_reset_counterexample :
    ((mGet (reach 20 envBranch [.readEv 1]).st 1).getD default).value =
      some 5 ∧
    ((mGet (reach 20 envBranch [.readEv 1]).st 1).getD default).readE =
      none ∧
    ((mGet (reach 20 envBranch [.readEv 1]).st 1).getD default).readP =
      none ∧
    ((mGet (reach 20 envBranch [.readEv 1, .writeEv 0 1]).st 1).getD
      default).readP ≠ none ∧
    ((mGet (reach 20 envBranch [.readEv 1, .writeEv 0 1]).st 1).getD
      default).value = some 0 ∧
    ((mGet (reach 20 envBranch [.readEv 1, .writeEv 0 1]).st 1).getD
      default).value ≠ some 5 :=
  ⟨rfl, rfl, rfl, by decide, rfl, by decide⟩

/-- Claim C4 (amended): in every configuration reachable by any sequence
of reads, writes, promise settlements and GC sweeps, every tracked atom
state (in the snapshot and in the side cache) satisfies: at most one of
`readError`/`readPromise` is set, and while a read is pending or errored
the stored value is the atom's initial value or unset — an atom
re-entering the pending state has its value reset to the initial value
rather than keeping the last resolved one. -/
theorem c4_state_invariant (fuel : Nat) (env : Env) (evs : List Event) :
    configInv env (reach fuel env evs) :=
  configInv_reach fuel env evs

/-- Claim C1: for every derived atom `bid` whose read calls `get` on
atom `aid` and computes any function `f` of its value, in the canonical
dependency topology the engine itself creates on first read (`aid`'s
dependents are itself and `bid`, `bid` has none), a synchronous
`write(aid, v)` recomputes `bid` from the new value of `aid` within the
same immediately-settled transition: afterwards `bid`'s stored state
holds `f v` with no pending read or error, `aid` holds `v`, the write
produced no pending promise and no error, and a subsequent read of
`bid` returns exactly the recomputed state.  In particular, for `count`
(initial 0) and `doubled = get(count) * 2`: `read(doubled)` is 0
initially and 2 after `write(count, 1)` settles. -/
theorem c1_dependent_recompute
    (n : Nat) (env : Env) (aid bid : Nat) (f : Int → Int) (v : Int)
    (st : State) (pc0 : Nat) (cs : List Cont) (pends : List Pend)
    (cache : Cache) (s sB : AtomState)
    (hAr : (env.atoms aid).read = .getA aid .ret)
    (hAw : (env.atoms aid).write = some (fun u => .setW aid u .done))
    (hBr : (env.atoms bid).read = .getA aid (fun w => .ret (f w)))
    (hne : aid ≠ bid)
    (hA : mGet st aid = some s) (hAwp : s.writeP = none)
    (hAdeps : s.deps = [aid, bid])
    (hB : mGet st bid = some sB) (hBdeps : sB.deps = []) :
    ((mGet (writeAtomState (n + 13) env aid v ⟨st, pc0, cs⟩ pends).1.st bid).getD default).value = some (f v) ∧
    ((mGet (writeAtomState (n + 13) env aid v ⟨st, pc0, cs⟩ pends).1.st bid).getD default).readE = none ∧
    ((mGet (writeAtomState (n + 13) env aid v ⟨st, pc0, cs⟩ pends).1.st bid).getD default).readP = none ∧
    ((mGet (writeAtomState (n + 13) env aid v ⟨st, pc0, cs⟩ pends).1.st aid).getD default).value = some v ∧
    (writeAtomState (n + 13) env aid v ⟨st, pc0, cs⟩ pends).2.1 = pends ∧
    (writeAtomState (n + 13) env aid v ⟨st, pc0, cs⟩ pends).2.2 = none ∧
    readAtomState 1 env (some cache) bid ⟨(writeAtomState (n + 13) env aid v ⟨st, pc0, cs⟩ pends).1.st, pc0, cs⟩ =
      ((mGet (writeAtomState (n + 13) env aid v ⟨st, pc0, cs⟩ pends).1.st bid).getD default, ⟨(writeAtomState (n + 13) env aid v ⟨st, pc0, cs⟩ pends).1.st, pc0, cs⟩) ∧
    ((mGet (reach 20 envCount [.readEv 1]).st 1).getD default).value =
      some 0 ∧
    ((mGet (reach 20 envCount [.readEv 1, .writeEv 0 1]).st 1).getD
        default).value = some 2 ∧
    ((mGet (reach 20 envCount [.readEv 1, .writeEv 0 1, .readEv 1]).st 1).getD
        default).value = some 2 := by
  have hbne : ¬ bid = aid := fun h => hne h.symm
  -- the snapshot right after `set(aid, v)` applied its partial update
  have hst1A : mGet (updateAtomState aid st { readE := some none, readP := some none, value := some (some v) } none) aid = some ⟨none, none, none, some v, [aid, bid]⟩ := by
    simp [updateAtomState, hA, applyPart, mGet_mSet, hAwp, hAdeps]
  have hst1B : mGet (updateAtomState aid st { readE := some none, readP := some none, value := some (some v) } none) bid = some sB := by
    simp [updateAtomState, hA, applyPart, mGet_mSet, hne, hB]
  -- the re-read of `aid` against the updated snapshot
  have h1 : runRead (n + 1) env none aid (ReadExpr.ret v)
      ⟨updateAtomState aid st { readE := some none, readP := some none, value := some (some v) } none, pc0, cs⟩ [aid] =
      (.ok (.inl v), ⟨updateAtomState aid st { readE := some none, readP := some none, value := some (some v) } none, pc0, cs⟩, [aid]) := by
    show runRead (Nat.succ n) env none aid (ReadExpr.ret v)
      ⟨updateAtomState aid st { readE := some none, readP := some none, value := some (some v) } none, pc0, cs⟩ [aid] = _
    simp [runRead]
  have h2 : runRead (n + 2) env none aid (ReadExpr.getA aid ReadExpr.ret)
      ⟨updateAtomState aid st { readE := some none, readP := some none, value := some (some v) } none, pc0, cs⟩ [] =
      (.ok (.inl v), ⟨updateAtomState aid st { readE := some none, readP := some none, value := some (some v) } none, pc0, cs⟩, [aid]) := by
    show runRead (Nat.succ (n + 1)) env none aid
      (ReadExpr.getA aid ReadExpr.ret) ⟨updateAtomState aid st { readE := some none, readP := some none, value := some (some v) } none, pc0, cs⟩ [] = _
    simp only [runRead, hst1A, if_pos rfl, Option.getD_some, List.mem_nil_iff,
      if_false, List.nil_append, h1]
    simp [h1]
  have h3 : readAtomStateMain (n + 3) env none aid ⟨updateAtomState aid st { readE := some none, readP := some none, value := some (some v) } none, pc0, cs⟩ =
      ((mGet (replaceDependencies aid (updateAtomState aid (updateAtomState aid st { readE := some none, readP := some none, value := some (some v) } none) { readE := some none, readP := some none, value := some (some v) } none) [aid]) aid).getD default, ⟨replaceDependencies aid (updateAtomState aid (updateAtomState aid st { readE := some none, readP := some none, value := some (some v) } none) { readE := some none, readP := some none, value := some (some v) } none) [aid], pc0, cs⟩) := by
    show readAtomStateMain (Nat.succ (n + 2)) env none aid
      ⟨updateAtomState aid st { readE := some none, readP := some none, value := some (some v) } none, pc0, cs⟩ = _
    simp only [readAtomStateMain, hAr, h2]
  have h4 : readAtomState (n + 4) env none aid ⟨updateAtomState aid st { readE := some none, readP := some none, value := some (some v) } none, pc0, cs⟩ =
      ((mGet (replaceDependencies aid (updateAtomState aid (updateAtomState aid st { readE := some none, readP := some none, value := some (some v) } none) { readE := some none, readP := some none, value := some (some v) } none) [aid]) aid).getD default, ⟨replaceDependencies aid (updateAtomState aid (updateAtomState aid st { readE := some none, readP := some none, value := some (some v) } none) { readE := some none, readP := some none, value := some (some v) } none) [aid], pc0, cs⟩) := by
    show readAtomState (Nat.succ (n + 3)) env none aid
      ⟨updateAtomState aid st { readE := some none, readP := some none, value := some (some v) } none, pc0, cs⟩ = _
    simp only [readAtomState]
    exact h3
  -- fields of `aid` after its re-read
  have hSTA2A : mGet (updateAtomState aid (updateAtomState aid st { readE := some none, readP := some none, value := some (some v) } none) { readE := some none, readP := some none, value := some (some v) } none) aid =
      some ⟨none, none, none, some v, [aid, bid]⟩ := by
    rw [mGet_updateAtomState_self_none _ _ _ _ hst1A]
    simp [applyPart]
  have hSTA2B : mGet (updateAtomState aid (updateAtomState aid st { readE := some none, readP := some none, value := some (some v) } none) { readE := some none, readP := some none, value := some (some v) } none) bid = some sB := by
    rw [mGet_updateAtomState_other aid bid _ _ none hne]
    exact hst1B
  have hA3core : (mGet (replaceDependencies aid (updateAtomState aid (updateAtomState aid st { readE := some none, readP := some none, value := some (some v) } none) { readE := some none, readP := some none, value := some (some v) } none) [aid]) aid).map coreOf =
      some (coreOf ⟨none, none, none, some v, [aid, bid]⟩) := by
    rw [coreOf_replaceDependencies, hSTA2A]
    rfl
  have hfA := coreOf_fields hA3core
  have hAe : ((mGet (replaceDependencies aid (updateAtomState aid (updateAtomState aid st { readE := some none, readP := some none, value := some (some v) } none) { readE := some none, readP := some none, value := some (some v) } none) [aid]) aid).getD default).readE = none := hfA.1
  have hAp : ((mGet (replaceDependencies aid (updateAtomState aid (updateAtomState aid st { readE := some none, readP := some none, value := some (some v) } none) { readE := some none, readP := some none, value := some (some v) } none) [aid]) aid).getD default).readP = none := hfA.2.1
  have hAv : ((mGet (replaceDependencies aid (updateAtomState aid (updateAtomState aid st { readE := some none, readP := some none, value := some (some v) } none) { readE := some none, readP := some none, value := some (some v) } none) [aid]) aid).getD default).value = some v := hfA.2.2.2
  have hSTA3B : mGet (replaceDependencies aid (updateAtomState aid (updateAtomState aid st { readE := some none, readP := some none, value := some (some v) } none) { readE := some none, readP := some none, value := some (some v) } none) [aid]) bid = some sB := by
    have h1' : aid ∉ ((mGet (updateAtomState aid (updateAtomState aid st { readE := some none, readP := some none, value := some (some v) } none) { readE := some none, readP := some none, value := some (some v) } none) bid).getD default).deps := by
      rw [hSTA2B]
      simp [hBdeps]
    have h2' : bid ∉ [aid] := by simpa using hbne
    rw [replaceDependencies_mGet_untouched aid _ [aid] bid h1' h2', hSTA2B]
  -- the re-read of `bid` against the updated snapshot
  have h5 : runRead (n + 4) env none bid (ReadExpr.ret (f v))
      ⟨replaceDependencies aid (updateAtomState aid (updateAtomState aid st { readE := some none, readP := some none, value := some (some v) } none) { readE := some none, readP := some none, value := some (some v) } none) [aid], pc0, cs⟩ [aid] =
      (.ok (.inl (f v)), ⟨replaceDependencies aid (updateAtomState aid (updateAtomState aid st { readE := some none, readP := some none, value := some (some v) } none) { readE := some none, readP := some none, value := some (some v) } none) [aid], pc0, cs⟩, [aid]) := by
    show runRead (Nat.succ (n + 3)) env none bid (ReadExpr.ret (f v))
      ⟨replaceDependencies aid (updateAtomState aid (updateAtomState aid st { readE := some none, readP := some none, value := some (some v) } none) { readE := some none, readP := some none, value := some (some v) } none) [aid], pc0, cs⟩ [aid] = _
    simp [runRead]
  have h6 : runRead (n + 5) env none bid
      (ReadExpr.getA aid (fun w => ReadExpr.ret (f w)))
      ⟨updateAtomState aid st { readE := some none, readP := some none, value := some (some v) } none, pc0, cs⟩ [] =
      (.ok (.inl (f v)), ⟨replaceDependencies aid (updateAtomState aid (updateAtomState aid st { readE := some none, readP := some none, value := some (some v) } none) { readE := some none, readP := some none, value := some (some v) } none) [aid], pc0, cs⟩, [aid]) := by
    show runRead (Nat.succ (n + 4)) env none bid
      (ReadExpr.getA aid (fun w => ReadExpr.ret (f w)))
      ⟨updateAtomState aid st { readE := some none, readP := some none, value := some (some v) } none, pc0, cs⟩ [] = _
    simp only [runRead, hne, if_false, h4, hAe, hAp, hAv, Option.getD_some,
      List.mem_nil_iff, List.nil_append, h5]
  have h7 : readAtomStateMain (n + 6) env none bid ⟨updateAtomState aid st { readE := some none, readP := some none, value := some (some v) } none, pc0, cs⟩ =
      ((mGet (replaceDependencies bid (updateAtomState bid (replaceDependencies aid (updateAtomState aid (updateAtomState aid st { readE := some none, readP := some none, value := some (some v) } none) { readE := some none, readP := some none, value := some (some v) } none) [aid]) { readE := some none, readP := some none, value := some (some (f v)) } none) [aid]) bid).getD default, ⟨replaceDependencies bid (updateAtomState bid (replaceDependencies aid (updateAtomState aid (updateAtomState aid st { readE := some none, readP := some none, value := some (some v) } none) { readE := some none, readP := some none, value := some (some v) } none) [aid]) { readE := some none, readP := some none, value := some (some (f v)) } none) [aid], pc0, cs⟩) := by
    show readAtomStateMain (Nat.succ (n + 5)) env none bid
      ⟨updateAtomState aid st { readE := some none, readP := some none, value := some (some v) } none, pc0, cs⟩ = _
    simp only [readAtomStateMain, hBr, h6]
  have h8 : readAtomState (n + 7) env none bid ⟨updateAtomState aid st { readE := some none, readP := some none, value := some (some v) } none, pc0, cs⟩ =
      ((mGet (replaceDependencies bid (updateAtomState bid (replaceDependencies aid (updateAtomState aid (updateAtomState aid st { readE := some none, readP := some none, value := some (some v) } none) { readE := some none, readP := some none, value := some (some v) } none) [aid]) { readE := some none, readP := some none, value := some (some (f v)) } none) [aid]) bid).getD default, ⟨replaceDependencies bid (updateAtomState bid (replaceDependencies aid (updateAtomState aid (updateAtomState aid st { readE := some none, readP := some none, value := some (some v) } none) { readE := some none, readP := some none, value := some (some v) } none) [aid]) { readE := some none, readP := some none, value := some (some (f v)) } none) [aid], pc0, cs⟩) := by
    show readAtomState (Nat.succ (n + 6)) env none bid
      ⟨updateAtomState aid st { readE := some none, readP := some none, value := some (some v) } none, pc0, cs⟩ = _
    simp only [readAtomState]
    exact h7
  -- fields of `bid` after its recomputation
  have hSTB4B : mGet (updateAtomState bid (replaceDependencies aid (updateAtomState aid (updateAtomState aid st { readE := some none, readP := some none, value := some (some v) } none) { readE := some none, readP := some none, value := some (some v) } none) [aid]) { readE := some none, readP := some none, value := some (some (f v)) } none) bid =
      some ⟨none, none, sB.writeP, some (f v), []⟩ := by
    rw [mGet_updateAtomState_self_none _ _ _ _ hSTA3B]
    simp [applyPart, hBdeps]
  have hSTB5B : mGet (replaceDependencies bid (updateAtomState bid (replaceDependencies aid (updateAtomState aid (updateAtomState aid st { readE := some none, readP := some none, value := some (some v) } none) { readE := some none, readP := some none, value := some (some v) } none) [aid]) { readE := some none, readP := some none, value := some (some (f v)) } none) [aid]) bid =
      some ⟨none, none, sB.writeP, some (f v), []⟩ := by
    have h1' : bid ∉ ((mGet (updateAtomState bid (replaceDependencies aid (updateAtomState aid (updateAtomState aid st { readE := some none, readP := some none, value := some (some v) } none) { readE := some none, readP := some none, value := some (some v) } none) [aid]) { readE := some none, readP := some none, value := some (some (f v)) } none) bid).getD default).deps := by
      rw [hSTB4B]
      simp
    have h2' : bid ∉ [aid] := by simpa using hbne
    rw [replaceDependencies_mGet_untouched bid _ [aid] bid h1' h2', hSTB4B]
  have hBp : ((mGet (replaceDependencies bid (updateAtomState bid (replaceDependencies aid (updateAtomState aid (updateAtomState aid st { readE := some none, readP := some none, value := some (some v) } none) { readE := some none, readP := some none, value := some (some v) } none) [aid]) { readE := some none, readP := some none, value := some (some (f v)) } none) [aid]) bid).getD default).readP = none := by
    rw [hSTB5B]
    rfl
  -- dependent propagation terminates synchronously
  have h9a : udsList (n + 6) env bid ([] : List Nat) ⟨replaceDependencies bid (updateAtomState bid (replaceDependencies aid (updateAtomState aid (updateAtomState aid st { readE := some none, readP := some none, value := some (some v) } none) { readE := some none, readP := some none, value := some (some v) } none) [aid]) { readE := some none, readP := some none, value := some (some (f v)) } none) [aid], pc0, cs⟩ =
      ⟨replaceDependencies bid (updateAtomState bid (replaceDependencies aid (updateAtomState aid (updateAtomState aid st { readE := some none, readP := some none, value := some (some v) } none) { readE := some none, readP := some none, value := some (some v) } none) [aid]) { readE := some none, readP := some none, value := some (some (f v)) } none) [aid], pc0, cs⟩ := by
    show udsList (Nat.succ (n + 5)) env bid ([] : List Nat)
      ⟨replaceDependencies bid (updateAtomState bid (replaceDependencies aid (updateAtomState aid (updateAtomState aid st { readE := some none, readP := some none, value := some (some v) } none) { readE := some none, readP := some none, value := some (some v) } none) [aid]) { readE := some none, readP := some none, value := some (some (f v)) } none) [aid], pc0, cs⟩ = _
    simp [udsList]
  have h9 : updateDependentsState (n + 7) env bid ⟨replaceDependencies bid (updateAtomState bid (replaceDependencies aid (updateAtomState aid (updateAtomState aid st { readE := some none, readP := some none, value := some (some v) } none) { readE := some none, readP := some none, value := some (some v) } none) [aid]) { readE := some none, readP := some none, value := some (some (f v)) } none) [aid], pc0, cs⟩ =
      ⟨replaceDependencies bid (updateAtomState bid (replaceDependencies aid (updateAtomState aid (updateAtomState aid st { readE := some none, readP := some none, value := some (some v) } none) { readE := some none, readP := some none, value := some (some v) } none) [aid]) { readE := some none, readP := some none, value := some (some (f v)) } none) [aid], pc0, cs⟩ := by
    show updateDependentsState (Nat.succ (n + 6)) env bid
      ⟨replaceDependencies bid (updateAtomState bid (replaceDependencies aid (updateAtomState aid (updateAtomState aid st { readE := some none, readP := some none, value := some (some v) } none) { readE := some none, readP := some none, value := some (some v) } none) [aid]) { readE := some none, readP := some none, value := some (some (f v)) } none) [aid], pc0, cs⟩ = _
    simp only [updateDependentsState, hSTB5B]
    exact h9a
  have h10 : udsList (n + 7) env aid ([] : List Nat) ⟨replaceDependencies bid (updateAtomState bid (replaceDependencies aid (updateAtomState aid (updateAtomState aid st { readE := some none, readP := some none, value := some (some v) } none) { readE := some none, readP := some none, value := some (some v) } none) [aid]) { readE := some none, readP := some none, value := some (some (f v)) } none) [aid], pc0, cs⟩ =
      ⟨replaceDependencies bid (updateAtomState bid (replaceDependencies aid (updateAtomState aid (updateAtomState aid st { readE := some none, readP := some none, value := some (some v) } none) { readE := some none, readP := some none, value := some (some v) } none) [aid]) { readE := some none, readP := some none, value := some (some (f v)) } none) [aid], pc0, cs⟩ := by
    show udsList (Nat.succ (n + 6)) env aid ([] : List Nat)
      ⟨replaceDependencies bid (updateAtomState bid (replaceDependencies aid (updateAtomState aid (updateAtomState aid st { readE := some none, readP := some none, value := some (some v) } none) { readE := some none, readP := some none, value := some (some v) } none) [aid]) { readE := some none, readP := some none, value := some (some (f v)) } none) [aid], pc0, cs⟩ = _
    simp [udsList]
  have h11 : udsList (n + 8) env aid [bid] ⟨updateAtomState aid st { readE := some none, readP := some none, value := some (some v) } none, pc0, cs⟩ =
      ⟨replaceDependencies bid (updateAtomState bid (replaceDependencies aid (updateAtomState aid (updateAtomState aid st { readE := some none, readP := some none, value := some (some v) } none) { readE := some none, readP := some none, value := some (some v) } none) [aid]) { readE := some none, readP := some none, value := some (some (f v)) } none) [aid], pc0, cs⟩ := by
    show udsList (Nat.succ (n + 7)) env aid [bid] ⟨updateAtomState aid st { readE := some none, readP := some none, value := some (some v) } none, pc0, cs⟩ = _
    have hcond : ¬ (bid = aid ∨ (mGet (updateAtomState aid st { readE := some none, readP := some none, value := some (some v) } none) bid).isNone = true) := by
      intro h
      cases h with
      | inl h => exact hbne h
      | inr h => rw [hst1B] at h; simp at h
    simp only [udsList, if_neg hcond, h8, hBp, h9, h10]
  have h12 : udsList (n + 9) env aid [aid, bid] ⟨updateAtomState aid st { readE := some none, readP := some none, value := some (some v) } none, pc0, cs⟩ =
      ⟨replaceDependencies bid (updateAtomState bid (replaceDependencies aid (updateAtomState aid (updateAtomState aid st { readE := some none, readP := some none, value := some (some v) } none) { readE := some none, readP := some none, value := some (some v) } none) [aid]) { readE := some none, readP := some none, value := some (some (f v)) } none) [aid], pc0, cs⟩ := by
    show udsList (Nat.succ (n + 8)) env aid [aid, bid]
      ⟨updateAtomState aid st { readE := some none, readP := some none, value := some (some v) } none, pc0, cs⟩ = _
    simp only [udsList, if_pos (Or.inl rfl)]
    exact h11
  have h13 : updateDependentsState (n + 10) env aid ⟨updateAtomState aid st { readE := some none, readP := some none, value := some (some v) } none, pc0, cs⟩ =
      ⟨replaceDependencies bid (updateAtomState bid (replaceDependencies aid (updateAtomState aid (updateAtomState aid st { readE := some none, readP := some none, value := some (some v) } none) { readE := some none, readP := some none, value := some (some v) } none) [aid]) { readE := some none, readP := some none, value := some (some (f v)) } none) [aid], pc0, cs⟩ := by
    show updateDependentsState (Nat.succ (n + 9)) env aid
      ⟨updateAtomState aid st { readE := some none, readP := some none, value := some (some v) } none, pc0, cs⟩ = _
    simp only [updateDependentsState, hst1A]
    exact h12
  -- the write itself
  have h14 : runWrite (n + 10) env aid WriteExpr.done ⟨replaceDependencies bid (updateAtomState bid (replaceDependencies aid (updateAtomState aid (updateAtomState aid st { readE := some none, readP := some none, value := some (some v) } none) { readE := some none, readP := some none, value := some (some v) } none) [aid]) { readE := some none, readP := some none, value := some (some (f v)) } none) [aid], pc0, cs⟩ pends =
      (⟨replaceDependencies bid (updateAtomState bid (replaceDependencies aid (updateAtomState aid (updateAtomState aid st { readE := some none, readP := some none, value := some (some v) } none) { readE := some none, readP := some none, value := some (some v) } none) [aid]) { readE := some none, readP := some none, value := some (some (f v)) } none) [aid], pc0, cs⟩, pends, none, none) := by
    show runWrite (Nat.succ (n + 9)) env aid WriteExpr.done
      ⟨replaceDependencies bid (updateAtomState bid (replaceDependencies aid (updateAtomState aid (updateAtomState aid st { readE := some none, readP := some none, value := some (some v) } none) { readE := some none, readP := some none, value := some (some v) } none) [aid]) { readE := some none, readP := some none, value := some (some (f v)) } none) [aid], pc0, cs⟩ pends = _
    rfl
  have h15 : runWrite (n + 11) env aid (WriteExpr.setW aid v WriteExpr.done)
      ⟨st, pc0, cs⟩ pends = (⟨replaceDependencies bid (updateAtomState bid (replaceDependencies aid (updateAtomState aid (updateAtomState aid st { readE := some none, readP := some none, value := some (some v) } none) { readE := some none, readP := some none, value := some (some v) } none) [aid]) { readE := some none, readP := some none, value := some (some (f v)) } none) [aid], pc0, cs⟩, pends, none, none) := by
    show runWrite (Nat.succ (n + 10)) env aid
      (WriteExpr.setW aid v WriteExpr.done) ⟨st, pc0, cs⟩ pends = _
    simp only [runWrite, if_pos rfl, h13, h14]
    simp
  have h16 : writeAtomStateRun (n + 12) env aid v ⟨st, pc0, cs⟩ pends =
      (⟨replaceDependencies bid (updateAtomState bid (replaceDependencies aid (updateAtomState aid (updateAtomState aid st { readE := some none, readP := some none, value := some (some v) } none) { readE := some none, readP := some none, value := some (some v) } none) [aid]) { readE := some none, readP := some none, value := some (some (f v)) } none) [aid], pc0, cs⟩, pends, none) := by
    show writeAtomStateRun (Nat.succ (n + 11)) env aid v
      ⟨st, pc0, cs⟩ pends = _
    simp only [writeAtomStateRun, hAw, h15]
  have h17 : writeAtomState (n + 13) env aid v ⟨st, pc0, cs⟩ pends = (⟨replaceDependencies bid (updateAtomState bid (replaceDependencies aid (updateAtomState aid (updateAtomState aid st { readE := some none, readP := some none, value := some (some v) } none) { readE := some none, readP := some none, value := some (some v) } none) [aid]) { readE := some none, readP := some none, value := some (some (f v)) } none) [aid], pc0, cs⟩, pends, none) := by
    show writeAtomState (Nat.succ (n + 12)) env aid v
      ⟨st, pc0, cs⟩ pends = _
    simp only [writeAtomState, hA, hAwp, h16]
  -- fields of `aid` in the final snapshot
  have hSTB4A : mGet (updateAtomState bid (replaceDependencies aid (updateAtomState aid (updateAtomState aid st { readE := some none, readP := some none, value := some (some v) } none) { readE := some none, readP := some none, value := some (some v) } none) [aid]) { readE := some none, readP := some none, value := some (some (f v)) } none) aid = mGet (replaceDependencies aid (updateAtomState aid (updateAtomState aid st { readE := some none, readP := some none, value := some (some v) } none) { readE := some none, readP := some none, value := some (some v) } none) [aid]) aid := by
    rw [mGet_updateAtomState_other bid aid _ _ none hbne]
  have hB5Acore : (mGet (replaceDependencies bid (updateAtomState bid (replaceDependencies aid (updateAtomState aid (updateAtomState aid st { readE := some none, readP := some none, value := some (some v) } none) { readE := some none, readP := some none, value := some (some v) } none) [aid]) { readE := some none, readP := some none, value := some (some (f v)) } none) [aid]) aid).map coreOf =
      some (coreOf ⟨none, none, none, some v, [aid, bid]⟩) := by
    rw [coreOf_replaceDependencies, hSTB4A]
    exact hA3core
  have hfA5 := coreOf_fields hB5Acore
  -- the subsequent read of `bid` reuses the stored state
  have hread : readAtomState 1 env (some cache) bid ⟨replaceDependencies bid (updateAtomState bid (replaceDependencies aid (updateAtomState aid (updateAtomState aid st { readE := some none, readP := some none, value := some (some v) } none) { readE := some none, readP := some none, value := some (some v) } none) [aid]) { readE := some none, readP := some none, value := some (some (f v)) } none) [aid], pc0, cs⟩ =
      ((mGet (replaceDependencies bid (updateAtomState bid (replaceDependencies aid (updateAtomState aid (updateAtomState aid st { readE := some none, readP := some none, value := some (some v) } none) { readE := some none, readP := some none, value := some (some v) } none) [aid]) { readE := some none, readP := some none, value := some (some (f v)) } none) [aid]) bid).getD default, ⟨replaceDependencies bid (updateAtomState bid (replaceDependencies aid (updateAtomState aid (updateAtomState aid st { readE := some none, readP := some none, value := some (some v) } none) { readE := some none, readP := some none, value := some (some v) } none) [aid]) { readE := some none, readP := some none, value := some (some (f v)) } none) [aid], pc0, cs⟩) := by
    show readAtomState (Nat.succ 0) env (some cache) bid
      ⟨replaceDependencies bid (updateAtomState bid (replaceDependencies aid (updateAtomState aid (updateAtomState aid st { readE := some none, readP := some none, value := some (some v) } none) { readE := some none, readP := some none, value := some (some v) } none) [aid]) { readE := some none, readP := some none, value := some (some (f v)) } none) [aid], pc0, cs⟩ = _
    simp [readAtomState, hSTB5B]
  refine ⟨?_, ?_, ?_, ?_, ?_, ?_, ?_, rfl, rfl, rfl⟩
  · simp only [h17, hSTB5B, Option.getD_some]
  · simp only [h17, hSTB5B, Option.getD_some]
  · simp only [h17, hSTB5B, Option.getD_some]
  · rw [h17]
    exact hfA5.2.2.2
  · rw [h17]
  · rw [h17]
  · rw [h17]
    exact hread

/-- Witness for C1: the `count`/`doubled` instance of the universal
statement, at the canonical snapshot the first read of `doubled`
creates, written with the value 1. -/
theorem c1_dependent_recompute_witness :
    ((mGet (writeAtomState 13 envCount 0 1
      ⟨[(0, ⟨none, none, none, some 0, [0, 1]⟩),
        (1, ⟨none, none, none, some 0, []⟩)], 0, []⟩ []).1.st 1).getD
      default).value = some 2 ∧
    ((mGet (writeAtomState 13 envCount 0 1
      ⟨[(0, ⟨none, none, none, some 0, [0, 1]⟩),
        (1, ⟨none, none, none, some 0, []⟩)], 0, []⟩ []).1.st 1).getD
      default).readE = none ∧
    ((mGet (writeAtomState 13 envCount 0 1
      ⟨[(0, ⟨none, none, none, some 0, [0, 1]⟩),
        (1, ⟨none, none, none, some 0, []⟩)], 0, []⟩ []).1.st 1).getD
      default).readP = none ∧
    ((mGet (writeAtomState 13 envCount 0 1
      ⟨[(0, ⟨none, none, none, some 0, [0, 1]⟩),
        (1, ⟨none, none, none, some 0, []⟩)], 0, []⟩ []).1.st 0).getD
      default).value = some 1 ∧
    (writeAtomState 13 envCount 0 1
      ⟨[(0, ⟨none, none, none, some 0, [0, 1]⟩),
        (1, ⟨none, none, none, some 0, []⟩)], 0, []⟩ []).2.1 = [] ∧
    (writeAtomState 13 envCount 0 1
      ⟨[(0, ⟨none, none, none, some 0, [0, 1]⟩),
        (1, ⟨none, none, none, some 0, []⟩)], 0, []⟩ []).2.2 = none ∧
    readAtomState 1 envCount (some []) 1
        ⟨(writeAtomState 13 envCount 0 1
          ⟨[(0, ⟨none, none, none, some 0, [0, 1]⟩),
            (1, ⟨none, none, none, some 0, []⟩)], 0, []⟩ []).1.st, 0, []⟩ =
      ((mGet (writeAtomState 13 envCount 0 1
          ⟨[(0, ⟨none, none, none, some 0, [0, 1]⟩),
            (1, ⟨none, none, none, some 0, []⟩)], 0, []⟩ []).1.st 1).getD
        default,
        ⟨(writeAtomState 13 envCount 0 1
          ⟨[(0, ⟨none, none, none, some 0, [0, 1]⟩),
            (1, ⟨none, none, none, some 0, []⟩)], 0, []⟩ []).1.st, 0, []⟩) ∧
    ((mGet (reach 20 envCount [.readEv 1]).st 1).getD default).value =
      some 0 ∧
    ((mGet (reach 20 envCount [.readEv 1, .writeEv 0 1]).st 1).getD
        default).value = some 2 ∧
    ((mGet (reach 20 envCount [.readEv 1, .writeEv 0 1, .readEv 1]).st 1).getD
        default).value = some 2 :=
  c1_dependent_recompute 0 envCount 0 1 (fun w => w * 2) 1
    [(0, ⟨none, none, none, some 0, [0, 1]⟩),
     (1, ⟨none, none, none, some 0, []⟩)] 0 [] [] []
    ⟨none, none, none, some 0, [0, 1]⟩ ⟨none, none, none, some 0, []⟩
    rfl rfl rfl (by decide) rfl rfl rfl rfl rfl

end Jotai
